import Mathlib

namespace CoinToss

/-- Outcome tags stored in `stats.history`. -/
inductive Outcome where
  | Heads
  | Tails
  | Edge
  deriving DecidableEq, Repr, Inhabited

/-- The fields of `this.stats` read by the statistics functions. -/
structure TossStats where
  total : Nat
  heads : Nat
  tails : Nat
  edge : Nat
  history : List Outcome
  deriving DecidableEq, Repr

/-- The quotient `a / b` without rounding, as `calculateEntropy` is read over the reals:
`none` stands for the non-finite results (`NaN`, `Infinity`, `-Infinity`) that a zero divisor
produces. -/
def jsDiv (a b : ℚ) : Option ℚ :=
  if b = 0 then none else some (a / b)

/-- Round to the nearest integer, a tie to the even neighbour. -/
def roundHalfEven (x : ℚ) : ℤ :=
  if x - ⌊x⌋ < 1 / 2 then ⌊x⌋
  else if 1 / 2 < x - ⌊x⌋ then ⌊x⌋ + 1
  else if ⌊x⌋ % 2 = 0 then ⌊x⌋ else ⌊x⌋ + 1

/-- The IEEE 754 binary64 number nearest to `q`, a tie to the even mantissa: 53 significant
bits, exponents from -1022 (below that the spacing stays `2^-1074`) to 1023. `none` is the
overflow to `Infinity` or `-Infinity`. A JavaScript number that is finite is such a rational. -/
def roundDouble (q : ℚ) : Option ℚ :=
  if q = 0 then some 0
  else
    let e : ℤ := max (Int.log 2 |q|) (-1022)
    let ulp : ℚ := 2 ^ (e - 52)
    let r : ℚ := (roundHalfEven (q / ulp) : ℚ) * ulp
    if |r| < 2 ^ (1024 : ℕ) then some r else none

/-- JavaScript `a / b` on finite numbers: the rounded quotient; a zero divisor gives `NaN` or
an infinity (`none`). -/
def divDouble (a b : ℚ) : Option ℚ :=
  if b = 0 then none else roundDouble (a / b)

/-- JavaScript `a + b` on finite numbers. -/
def addDouble (a b : ℚ) : Option ℚ := roundDouble (a + b)

/-- JavaScript `a - b` on finite numbers. -/
def subDouble (a b : ℚ) : Option ℚ := roundDouble (a - b)

/-- The call `Math.pow(x, 2)` on a finite number, taken as the rounded square. -/
def powDouble (x : ℚ) (n : ℕ) : Option ℚ := roundDouble (x ^ n)

/-- `Math.log2` on a real argument: `none` stands for `-Infinity` (argument 0) and
`NaN` (negative argument). -/
noncomputable def jsLog2 (x : ℝ) : Option ℝ :=
  if 0 < x then some (Real.logb 2 x) else none

/-- `calculateChiSquared` (main.js 403-411), every operation in double arithmetic. -/
def calculateChiSquared (s : TossStats) : Option ℚ :=
  if s.total = 0 then some 0
  else do
    let expected ← divDouble s.total 2
    let headsDiff ← subDouble s.heads expected
    let headsSquare ← powDouble headsDiff 2
    let headsTerm ← divDouble headsSquare expected
    let tailsDiff ← subDouble s.tails expected
    let tailsSquare ← powDouble tailsDiff 2
    let tailsTerm ← divDouble tailsSquare expected
    addDouble headsTerm tailsTerm

/-- The statement `if (p > 0) entropy -= p * Math.log2(p);` of `calculateEntropy`. -/
noncomputable def subtractTerm (entropy : ℝ) (p : ℚ) : Option ℝ :=
  if p > 0 then (jsLog2 (p : ℝ)).map (fun l => entropy - (p : ℝ) * l) else some entropy

/-- `calculateEntropy` (main.js 413-425). -/
noncomputable def calculateEntropy (s : TossStats) : Option ℝ :=
  if s.total = 0 then some 0
  else do
    let pHeads ← jsDiv s.heads s.total
    let pTails ← jsDiv s.tails s.total
    let entropy : ℝ := 0
    let entropy ← subtractTerm entropy pHeads
    let entropy ← subtractTerm entropy pTails
    pure entropy

/-- Loop variables of `findLongestStreak`. -/
structure LongestScan where
  maxStreak : Nat
  currentStreak : Nat
  currentResult : Outcome
  deriving DecidableEq, Repr

/-- One iteration of the `for` loop of `findLongestStreak` at element `x = history[i]`. -/
def longestStep (st : LongestScan) (x : Outcome) : LongestScan :=
  if x = st.currentResult then
    { st with currentStreak := st.currentStreak + 1,
              maxStreak := max st.maxStreak (st.currentStreak + 1) }
  else
    { st with currentStreak := 1, currentResult := x }

/-- `findLongestStreak` (main.js 427-446). -/
def findLongestStreak (s : TossStats) : Nat :=
  match s.history with
  | [] => 0
  | h :: rest => (rest.foldl longestStep ⟨1, 1, h⟩).maxStreak

/-- Loop variables of `calculateAverageStreak`. -/
structure AverageScan where
  streaks : List Nat
  currentStreak : Nat
  currentResult : Outcome
  deriving DecidableEq, Repr

/-- One iteration of the `for` loop of `calculateAverageStreak`. -/
def averageStep (st : AverageScan) (x : Outcome) : AverageScan :=
  if x = st.currentResult then
    { st with currentStreak := st.currentStreak + 1 }
  else
    { streaks := st.streaks ++ [st.currentStreak], currentStreak := 1, currentResult := x }

/-- The array `streaks` after the loop and the final `push` of `calculateAverageStreak`. -/
def collectStreaks (h : Outcome) (rest : List Outcome) : List Nat :=
  let st := rest.foldl averageStep ⟨[], 1, h⟩
  st.streaks ++ [st.currentStreak]

/-- `calculateAverageStreak` (main.js 448-468): the `reduce` adds in double arithmetic and the
final division rounds. -/
def calculateAverageStreak (s : TossStats) : Option ℚ :=
  match s.history with
  | [] => some 0
  | h :: rest =>
    let streaks := collectStreaks h rest
    do
      let total ← streaks.foldlM (fun (sum : ℚ) (streak : ℕ) => addDouble sum (streak : ℚ)) 0
      divDouble total streaks.length

/-- Stats after H H T H: the runs have lengths 2, 1, 1. -/
def threeRunStats : TossStats :=
  { total := 4, heads := 3, tails := 1, edge := 0,
    history := [.Heads, .Heads, .Tails, .Heads] }

/-- Stats after five heads and one tail, the spec's scenario H H H T H H. -/
def scenarioStats : TossStats :=
  { total := 6, heads := 5, tails := 1, edge := 0,
    history := [.Heads, .Heads, .Heads, .Tails, .Heads, .Heads] }

/-- Stats after three heads and one tail in the order H H H T. -/
def threeToOneStats : TossStats :=
  { total := 4, heads := 3, tails := 1, edge := 0,
    history := [.Heads, .Heads, .Heads, .Tails] }

/-- Counters of the size 2^600, where the squares leave the range of the doubles. -/
def hugeStats : TossStats :=
  { total := 2 ^ 600, heads := 2 ^ 600, tails := 0, edge := 0, history := [] }

/-- The double nearest to 4/3, printed by JavaScript as 1.3333333333333333. -/
def fourThirdsDouble : ℚ := 6004799503160661 / 2 ^ 52

/-- Stats after the eight tosses H T E H T E H T: three heads, three tails, two edges. -/
def edgeHeavyStats : TossStats :=
  { total := 8, heads := 3, tails := 3, edge := 2,
    history := [.Heads, .Tails, .Edge, .Heads, .Tails, .Edge, .Heads, .Tails] }

/-- The state of a fresh session: `defaultStats` of `loadStats`. -/
def emptyStats : TossStats :=
  { total := 0, heads := 0, tails := 0, edge := 0, history := [] }

/-- The object returned by `getStatisticalSummary`. -/
structure StatisticalSummary where
  total : Nat
  heads : Nat
  tails : Nat
  edge : Nat
  headsFrequency : Option ℚ
  tailsFrequency : Option ℚ
  edgeFrequency : Option ℚ
  chiSquared : Option ℚ
  entropy : Option ℝ
  longestStreak : Nat
  averageStreak : Option ℚ

/-- `getStatisticalSummary` (main.js 385-401). -/
noncomputable def getStatisticalSummary (s : TossStats) : StatisticalSummary :=
  { total := s.total
    heads := s.heads
    tails := s.tails
    edge := s.edge
    headsFrequency := if s.total > 0 then divDouble s.heads s.total else some 0
    tailsFrequency := if s.total > 0 then divDouble s.tails s.total else some 0
    edgeFrequency := if s.total > 0 then divDouble s.edge s.total else some 0
    chiSquared := calculateChiSquared s
    entropy := calculateEntropy s
    longestStreak := findLongestStreak s
    averageStreak := calculateAverageStreak s }

/-- A term `-p * log2 p` of the entropy sum; at `p = 0` it is 0, the contribution of a skipped
term. -/
noncomputable def entropyTerm (p : ℝ) : ℝ := -(p * Real.logb 2 p)

/-- Specification side: `rs` is the division of `l` into its maximal runs of consecutive equal
outcomes: the runs concatenate to `l`, each run is non-empty and constant, and neighbouring
runs carry different outcomes. -/
def IsMaximalRuns (rs : List (List Outcome)) (l : List Outcome) : Prop :=
  rs.flatten = l ∧ (∀ r ∈ rs, r ≠ [] ∧ ∀ x ∈ r, ∀ y ∈ r, x = y) ∧
    ∀ p ∈ rs.zip rs.tail, p.1.head? ≠ p.2.head?

instance (rs : List (List Outcome)) (l : List Outcome) : Decidable (IsMaximalRuns rs l) :=
  inferInstanceAs (Decidable (_ ∧ _ ∧ _))

/-- Specification side: the maximal runs of a history, computed from the right. -/
def maximalRuns : List Outcome → List (List Outcome)
  | [] => []
  | x :: xs =>
    match maximalRuns xs with
    | (y :: ys) :: rs => if x = y then (x :: y :: ys) :: rs else [x] :: (y :: ys) :: rs
    | _ => [[x]]

/-- Specification side: the length of the longest maximal run, 0 for the empty history. -/
def longestRun (l : List Outcome) : Nat :=
  ((maximalRuns l).map List.length).foldr max 0

/-- The shared shape of the run hypotheses used by the scan lemmas. -/
def RunsAfter (c : Outcome) (rs : List (List Outcome)) : Prop :=
  (∀ r ∈ rs, r ≠ [] ∧ ∀ x ∈ r, ∀ y ∈ r, x = y) ∧
    (∀ p ∈ rs.zip rs.tail, p.1.head? ≠ p.2.head?) ∧
    ∀ r ∈ rs.head?, r.head? ≠ some c


/-! ## Persistence, achievements and import: the object model -/

/-- JavaScript values held in `this.stats` and `this.achievements`: the values `JSON.parse` can
return, `undefined`, and `builtin name` for a member inherited from `Object.prototype`. An
object is its list of own properties; the first entry for a key is the property. -/
inductive JSVal where
  | undefined
  | null
  | bool (b : Bool)
  | num (q : ℚ)
  | str (s : String)
  | arr (items : List JSVal)
  | obj (props : List (String × JSVal))
  | builtin (name : String)
  deriving Inhabited

/-- Own properties of an object. -/
abbrev Props := List (String × JSVal)

/-- JavaScript truthiness (`ToBoolean`). -/
def JSVal.truthy : JSVal → Bool
  | .undefined => false
  | .null => false
  | .bool b => b
  | .num q => decide (q ≠ 0)
  | .str s => decide (s ≠ "")
  | .arr _ => true
  | .obj _ => true
  | .builtin _ => true

/-- Own-property lookup. -/
def ownProp : Props → String → Option JSVal
  | [], _ => none
  | (k, v) :: rest, key => if k = key then some v else ownProp rest key

/-- Member names every plain object inherits from `Object.prototype`. -/
def objectPrototypeKeys : List String :=
  ["constructor", "__proto__", "hasOwnProperty", "isPrototypeOf", "propertyIsEnumerable",
   "toLocaleString", "toString", "valueOf", "__defineGetter__", "__defineSetter__",
   "__lookupGetter__", "__lookupSetter__"]

/-- The expression `o[key]` on a plain object: the own property if there is one, else the member
inherited from `Object.prototype`, else `undefined`. -/
def getProp (props : Props) (key : String) : JSVal :=
  match ownProp props key with
  | some v => v
  | none => if key ∈ objectPrototypeKeys then .builtin key else .undefined

/-- Replace the value of the first entry for `key`. -/
def replaceProp : Props → String → JSVal → Props
  | [], _, _ => []
  | (k, v) :: rest, key, w =>
    if k = key then (k, w) :: rest else (k, v) :: replaceProp rest key w

/-- The statement `o[key] = true` on a plain object: an own property is overwritten; the
inherited `__proto__` setter ignores a value that is not an object; any other key becomes a new
own property. -/
def assignTrue (props : Props) (key : String) : Props :=
  if (ownProp props key).isSome then replaceProp props key (.bool true)
  else if key = "__proto__" then props
  else props ++ [(key, .bool true)]

/-- Own enumerable properties copied by an object spread `...v`: those of an object, the
indexed elements of an array, the indexed characters of a string (one entry per character;
JavaScript counts a character beyond U+FFFF as two), nothing for `null`, `undefined`, booleans
and numbers. -/
def ownEnumerable : JSVal → Props
  | .obj props => props
  | .arr items => items.enum.map (fun p => (toString p.1, p.2))
  | .str s => s.toList.enum.map (fun p => (toString p.1, JSVal.str (String.singleton p.2)))
  | _ => []

/-- The object literal `{ ...defaults, ...v }`: each key of `defaults` keeps its place and takes
the value `v` has for it when `v` has one; the other keys of `v` follow. -/
def spreadOver (defaults : Props) (v : JSVal) : Props :=
  defaults.map (fun kv => (kv.1, (ownProp (ownEnumerable v) kv.1).getD kv.2)) ++
    (ownEnumerable v).filter (fun kv => (ownProp defaults kv.1).isNone)

/-- Exceptions raised by the modelled code. -/
inductive JSError where
  | syntaxError
  | typeError
  | invalidFormat
  deriving DecidableEq, Repr

/-- What the page takes from the browser: `JSON.parse` (`none` is a thrown `SyntaxError`),
`JSON.stringify`, whether `document.getElementById` finds an element, and `Date.now()`. -/
structure Host where
  parse : String → Option JSVal
  stringify : JSVal → String
  hasElement : String → Bool
  now : ℚ

/-- Observable effects, in the order the code performs them. -/
inductive Effect where
  | setItem (key value : String)
  | addUnlockedClass (elementId : String)
  | achievementNotification (achievementId : String)
  | notification (message kind : String)
  | dispatch (eventName achievementId : String)
  | reload
  deriving DecidableEq, Repr

/-- The fields of `CoinTossApp`, the contents of `localStorage`, and the effects so far. -/
structure AppState where
  stats : JSVal
  achievements : JSVal
  storage : String → Option String
  log : List Effect

/-- `defaultStats` of `loadStats`. -/
def defaultStats (host : Host) : Props :=
  [("total", .num 0), ("heads", .num 0), ("tails", .num 0), ("edge", .num 0),
   ("currentStreak", .num 0), ("maxStreak", .num 0), ("lastResult", .null),
   ("history", .arr []), ("sessionStart", .num host.now)]

/-- `defaultAchievements` of `loadAchievements`. -/
def defaultAchievements : Props :=
  [("first-toss", .bool false), ("hundred-tosses", .bool false), ("edge-land", .bool false),
   ("perfect-balance", .bool false), ("long-streak", .bool false),
   ("wisdom-seeker", .bool false), ("probability-master", .bool false),
   ("statistical-insight", .bool false)]

/-- The expression `saved ? { ...defaults, ...JSON.parse(saved) } : defaults` shared by
`loadStats` and `loadAchievements`; `saved` is what `localStorage.getItem` returned. -/
def loadMerged (host : Host) (defaults : Props) (saved : Option String) :
    Except JSError JSVal :=
  match saved with
  | none => .ok (.obj defaults)
  | some text =>
    if text = "" then .ok (.obj defaults)
    else
      match host.parse text with
      | none => .error .syntaxError
      | some v => .ok (.obj (spreadOver defaults v))

/-- `loadStats` (main.js 19-34). -/
def loadStats (host : Host) (storage : String → Option String) : Except JSError JSVal :=
  loadMerged host (defaultStats host) (storage "tossStats")

/-- `loadAchievements` (main.js 40-54). -/
def loadAchievements (host : Host) (storage : String → Option String) :
    Except JSError JSVal :=
  loadMerged host defaultAchievements (storage "achievements")

/-- `localStorage.setItem(key, value)`. -/
def setItem (key value : String) (st : AppState) : AppState :=
  { st with storage := fun k => if k = key then some value else st.storage k,
            log := st.log ++ [.setItem key value] }

/-- `saveStats` (main.js 36-38). -/
def saveStats (host : Host) (st : AppState) : AppState :=
  setItem "tossStats" (host.stringify st.stats) st

/-- `saveAchievements` (main.js 56-58). -/
def saveAchievements (host : Host) (st : AppState) : AppState :=
  setItem "achievements" (host.stringify st.achievements) st

/-- Append one effect to the log. -/
def emit (e : Effect) (st : AppState) : AppState :=
  { st with log := st.log ++ [e] }

/-- `showNotification` (main.js 517-527): the banner appended to the page. -/
def showNotification (message kind : String) (st : AppState) : AppState :=
  emit (.notification message kind) st

/-- The table `achievements` local to `showAchievementNotification` (main.js 83-92). -/
def notificationTable : Props :=
  [("first-toss", .obj [("name", .str "初次投掷"), ("icon", .str "🎯"), ("desc", .str "完成第一次掷币")]),
   ("hundred-tosses", .obj [("name", .str "百次投掷"), ("icon", .str "💯"), ("desc", .str "累计投掷100次")]),
   ("edge-land", .obj [("name", .str "立币奇迹"), ("icon", .str "⚖️"), ("desc", .str "见证铜币立住")]),
   ("perfect-balance", .obj [("name", .str "完美平衡"), ("icon", .str "⚖️"), ("desc", .str "正反面次数相等")]),
   ("long-streak", .obj [("name", .str "连胜纪录"), ("icon", .str "🔥"), ("desc", .str "连续10次相同结果")]),
   ("wisdom-seeker", .obj [("name", .str "智慧探求者"), ("icon", .str "🧠"), ("desc", .str "完成所有思考")]),
   ("probability-master", .obj [("name", .str "概率大师"), ("icon", .str "🎲"), ("desc", .str "理解概率论精髓")]),
   ("statistical-insight", .obj [("name", .str "统计洞察"), ("icon", .str "📊"), ("desc", .str "领悟统计规律")])]

/-- `showAchievementNotification` (main.js 82-116): returns early when the table has no truthy
entry for the id, else appends the banner. -/
def showAchievementNotification (achievementId : String) (st : AppState) : AppState :=
  if (getProp notificationTable achievementId).truthy then
    emit (.achievementNotification achievementId) st
  else st

/-- `dispatchEvent` (main.js 356-359) for the `achievementUnlocked` event. -/
def dispatchEvent (eventName achievementId : String) (st : AppState) : AppState :=
  emit (.dispatch eventName achievementId) st

/-- `unlockAchievement` (main.js 61-80) on an achievement set that is an object, which is what
`loadAchievements` always builds; any other value of `this.achievements` is outside the model
and gives `none`. -/
def unlockAchievement (host : Host) (achievementId : String) (showNotification : Bool)
    (st : AppState) : Option AppState :=
  match st.achievements with
  | .obj props =>
    if (getProp props achievementId).truthy then some st
    else
      let st := { st with achievements := .obj (assignTrue props achievementId) }
      let st := saveAchievements host st
      let st := if host.hasElement ("achievement-" ++ achievementId)
                then emit (.addUnlockedClass ("achievement-" ++ achievementId)) st else st
      let st := if showNotification then showAchievementNotification achievementId st else st
      some (dispatchEvent "achievementUnlocked" achievementId st)
  | _ => none

/-- The expressions `data.stats` and `data.achievements` of `importData`: reading a property of
`null` or `undefined` throws; an object answers with `getProp`; primitives and arrays have no
member of either name. -/
def readField (data : JSVal) (key : String) : Except JSError JSVal :=
  match data with
  | .null => .error .typeError
  | .undefined => .error .typeError
  | .obj props => .ok (getProp props key)
  | _ => .ok .undefined

/-- The `try` block of the `onload` handler of `importData` (main.js 498-509). -/
def importAttempt (host : Host) (text : String) (st : AppState) : Except JSError AppState :=
  match host.parse text with
  | none => .error .syntaxError
  | some data => do
    let stats ← readField data "stats"
    let achievements ← if stats.truthy then readField data "achievements" else pure stats
    if stats.truthy && achievements.truthy then
      let st := { st with stats := stats, achievements := achievements }
      let st := saveStats host st
      let st := saveAchievements host st
      let st := showNotification "数据导入成功！" "success" st
      pure (emit .reload st)
    else
      .error .invalidFormat

/-- `importData` (main.js 494-515), from the text the `FileReader` hands to `onload`: the `try`
block, and on an exception the error banner of the `catch` block. Every exception of the `try`
block is raised before its first assignment, so the banner is added to the state as it was. -/
def importData (host : Host) (text : String) (st : AppState) : AppState :=
  match importAttempt host text st with
  | .ok st1 => st1
  | .error _ => showNotification "数据导入失败：文件格式错误" "error" st

/-- Whether a parsed document has an own field `key`. -/
def hasField (data : JSVal) (key : String) : Bool :=
  match data with
  | .obj props => (ownProp props key).isSome
  | _ => false

/-! ## A concrete host and concrete states for the scenarios -/

mutual
/-- A compact JSON rendering, the `JSON.stringify` of the sample host. -/
def render : JSVal → String
  | .undefined => "undefined"
  | .null => "null"
  | .bool b => if b then "true" else "false"
  | .num q => if q.den = 1 then toString q.num else toString q.num ++ "/" ++ toString q.den
  | .str s => "\"" ++ s ++ "\""
  | .arr items => "[" ++ renderItems items ++ "]"
  | .obj props => "\x7b" ++ renderProps props ++ "\x7d"
  | .builtin name => name
/-- Elements of an array, comma separated. -/
def renderItems : List JSVal → String
  | [] => ""
  | [v] => render v
  | v :: vs => render v ++ "," ++ renderItems vs
/-- Properties of an object, comma separated. -/
def renderProps : List (String × JSVal) → String
  | [] => ""
  | [(k, v)] => "\"" ++ k ++ "\":" ++ render v
  | (k, v) :: ps => "\"" ++ k ++ "\":" ++ render v ++ "," ++ renderProps ps
end

/-- An export whose achievements field records `first-toss` as locked. -/
def revertingDocument : String :=
  "\x7b\"stats\":\x7b\"total\":0\x7d,\"achievements\":\x7b\"first-toss\":false\x7d\x7d"

/-- A document with a `stats` field and no `achievements` field. -/
def statsOnlyDocument : String := "\x7b\"stats\":\x7b\"total\":0\x7d\x7d"

/-- A text that is not JSON: a lone opening brace. -/
def malformedDocument : String := "\x7b"

/-- `JSON.parse` tabulated on the documents above; the lone brace is a syntax error. -/
def sampleParse (text : String) : Option JSVal :=
  if text = revertingDocument then
    some (.obj [("stats", .obj [("total", .num 0)]),
                ("achievements", .obj [("first-toss", .bool false)])])
  else if text = statsOnlyDocument then
    some (.obj [("stats", .obj [("total", .num 0)])])
  else none

/-- The host of the concrete scenarios. -/
def sampleHost : Host :=
  { parse := sampleParse, stringify := render, hasElement := fun _ => false, now := 0 }

/-- A session right after construction with empty storage. -/
def freshState : AppState :=
  { stats := .obj (defaultStats sampleHost), achievements := .obj defaultAchievements,
    storage := fun _ => none, log := [] }

/-- The achievement set after `first-toss` was unlocked. -/
def firstTossUnlocked : Props :=
  [("first-toss", .bool true), ("hundred-tosses", .bool false), ("edge-land", .bool false),
   ("perfect-balance", .bool false), ("long-streak", .bool false),
   ("wisdom-seeker", .bool false), ("probability-master", .bool false),
   ("statistical-insight", .bool false)]

/-- A session in which `first-toss` is unlocked and persisted. -/
def veteranState : AppState :=
  { stats := .obj (defaultStats sampleHost), achievements := .obj firstTossUnlocked,
    storage := fun k => if k = "achievements" then some (render (.obj firstTossUnlocked)) else none,
    log := [] }

/-- A storage whose two keys both hold the lone brace. -/
def corruptStorage : String → Option String :=
  fun k => if k = "tossStats" ∨ k = "achievements" then some malformedDocument else none

/-! ## The counter invariant of the stats object -/

/-- The counter `stats[key]` as a natural number, when it is a non-negative integer. -/
def counter (props : Props) (key : String) : Option Nat :=
  match getProp props key with
  | .num q => if q.den = 1 ∧ 0 ≤ q.num then some q.num.toNat else none
  | _ => none

/-- The invariant of the stats: the value is an object whose `total`, `heads`, `tails` and
`edge` are non-negative integers with `total == heads + tails + edge`. -/
def statsInvariant (v : JSVal) : Bool :=
  match v with
  | .obj props =>
    match counter props "total", counter props "heads", counter props "tails",
        counter props "edge" with
    | some total, some heads, some tails, some edge => decide (total = heads + tails + edge)
    | _, _, _, _ => false
  | _ => false

/-- The names of the four counters. -/
def counterKeys : List String := ["total", "heads", "tails", "edge"]

/-- A stored stats object that carries `total` only, as a release without the per-outcome
counters would have written it. -/
def totalOnlyDocument : String := "\x7b\"total\":5\x7d"

/-- A stored stats object with all four counters, three heads and two tails. -/
def consistentDocument : String :=
  "\x7b\"total\":5,\"heads\":3,\"tails\":2,\"edge\":0\x7d"

/-- An export whose stats claim ten tosses but count only three outcomes. -/
def skewedExport : String :=
  "\x7b\"stats\":\x7b\"total\":10,\"heads\":1,\"tails\":1,\"edge\":1\x7d,\"achievements\":\x7b\x7d\x7d"

/-- `JSON.parse` tabulated on the three documents above and, for the rest, as `sampleParse`. -/
def counterParse (text : String) : Option JSVal :=
  if text = totalOnlyDocument then
    some (.obj [("total", .num 5)])
  else if text = consistentDocument then
    some (.obj [("total", .num 5), ("heads", .num 3), ("tails", .num 2), ("edge", .num 0)])
  else if text = skewedExport then
    some (.obj [("stats", .obj [("total", .num 10), ("heads", .num 1), ("tails", .num 1),
                                ("edge", .num 1)]),
                ("achievements", .obj [])])
  else sampleParse text

/-- The host of the counter scenarios. -/
def counterHost : Host :=
  { parse := counterParse, stringify := render, hasElement := fun _ => false, now := 0 }

/-- A storage holding the total-only stats object. -/
def totalOnlyStorage : String → Option String :=
  fun k => if k = "tossStats" then some totalOnlyDocument else none

/-- A storage holding the stats object with all four counters. -/
def consistentStorage : String → Option String :=
  fun k => if k = "tossStats" then some consistentDocument else none

theorem jsDiv_of_ne_zero (a b : ℚ) (hb : b ≠ 0) : jsDiv a b = some (a / b) := by
  simp [jsDiv, hb]

theorem jsLog2_of_pos (x : ℝ) (hx : 0 < x) : jsLog2 x = some (Real.logb 2 x) := by
  simp [jsLog2, hx]

theorem subtractTerm_of_nonneg (e : ℝ) (p : ℚ) (hp : 0 ≤ p) :
    subtractTerm e p = some (e + entropyTerm (p : ℝ)) := by
  unfold subtractTerm entropyTerm
  rcases hp.eq_or_lt with h0 | hpos
  · subst h0
    simp
  · have hpr : (0 : ℝ) < (p : ℝ) := by exact_mod_cast hpos
    rw [if_pos hpos, jsLog2_of_pos _ hpr]
    simp [sub_eq_add_neg]

theorem calculateEntropy_eq (s : TossStats) (ht : s.total ≠ 0) :
    calculateEntropy s =
      some (entropyTerm ((s.heads : ℝ) / s.total) + entropyTerm ((s.tails : ℝ) / s.total)) := by
  have htq : (s.total : ℚ) ≠ 0 := by exact_mod_cast ht
  have hp : (0 : ℚ) ≤ (s.heads : ℚ) / s.total := by positivity
  have hq : (0 : ℚ) ≤ (s.tails : ℚ) / s.total := by positivity
  unfold calculateEntropy
  rw [if_neg ht, jsDiv_of_ne_zero _ _ htq, jsDiv_of_ne_zero _ _ htq]
  simp only [Option.bind_eq_bind, Option.some_bind, Option.pure_def]
  rw [subtractTerm_of_nonneg _ _ hp]
  simp only [Option.some_bind]
  rw [subtractTerm_of_nonneg _ _ hq]
  simp

theorem entropyTerm_nonneg (p : ℝ) (h0 : 0 ≤ p) (h1 : p ≤ 1) : 0 ≤ entropyTerm p := by
  unfold entropyTerm
  have := Real.logb_nonpos (b := 2) (by norm_num) h0 h1
  nlinarith [mul_nonpos_of_nonneg_of_nonpos h0 this]

theorem entropyTerm_add_le_one (p q : ℝ) (hpq : p + q = 1) :
    entropyTerm p + entropyTerm q ≤ 1 := by
  have hq : q = 1 - p := by linarith
  subst hq
  have hlog : 0 < Real.log 2 := Real.log_pos (by norm_num)
  have hb := Real.binEntropy_le_log_two (p := p)
  rw [Real.binEntropy_eq_negMulLog_add_negMulLog_one_sub] at hb
  unfold entropyTerm Real.logb
  unfold Real.negMulLog at hb
  rw [show -(p * (Real.log p / Real.log 2)) + -((1 - p) * (Real.log (1 - p) / Real.log 2))
        = (-p * Real.log p + -(1 - p) * Real.log (1 - p)) / Real.log 2 by field_simp; ring]
  rw [div_le_one hlog]
  exact hb

theorem entropyTerm_three_eighths : 1 / 2 < entropyTerm (3 / 8) := by
  have hlog : 0 < Real.log 2 := Real.log_pos (by norm_num)
  have h1 : Real.log ((2 : ℝ) ^ 4) < Real.log (((8 : ℝ) / 3) ^ 3) :=
    Real.log_lt_log (by norm_num) (by norm_num)
  rw [Real.log_pow, Real.log_pow] at h1
  have h2 : Real.log ((3 : ℝ) / 8) = -Real.log ((8 : ℝ) / 3) := by
    rw [← Real.log_inv]; norm_num
  unfold entropyTerm Real.logb
  rw [h2, lt_neg, ← mul_div_assoc, div_lt_iff₀ hlog]
  push_cast at h1
  linarith

/-- C1, as stated, fails: after three heads, three tails and two edges (total 8, a non-empty
history with `total = heads + tails + edge`), `calculateEntropy` returns a value above 1. -/
theorem calculateEntropy_edgeHeavy_gt_one :
    edgeHeavyStats.total = edgeHeavyStats.heads + edgeHeavyStats.tails + edgeHeavyStats.edge ∧
    0 < edgeHeavyStats.total ∧
    ∃ e, calculateEntropy edgeHeavyStats = some e ∧ 1 < e := by
  refine ⟨by decide, by decide, _, calculateEntropy_eq edgeHeavyStats (by decide), ?_⟩
  have h := entropyTerm_three_eighths
  simp only [edgeHeavyStats]
  norm_num
  linarith

/-- C1 (amended): for non-negative integer counters with `total = heads + tails + edge` and
`total > 0`, `calculateEntropy` returns a finite value `e` with `0 <= e`, and `e <= 1`
whenever no toss landed on the edge (`edge = 0`). -/
theorem calculateEntropy_bounds (s : TossStats)
    (hsum : s.total = s.heads + s.tails + s.edge) (hpos : 0 < s.total) :
    ∃ e, calculateEntropy s = some e ∧ 0 ≤ e ∧ (s.edge = 0 → e ≤ 1) := by
  have ht : s.total ≠ 0 := Nat.pos_iff_ne_zero.mp hpos
  have htr : (0 : ℝ) < s.total := by exact_mod_cast hpos
  have hsumr : (s.total : ℝ) = s.heads + s.tails + s.edge := by exact_mod_cast hsum
  have hh0 : (0 : ℝ) ≤ (s.heads : ℝ) / s.total := by positivity
  have ht0 : (0 : ℝ) ≤ (s.tails : ℝ) / s.total := by positivity
  have hh1 : (s.heads : ℝ) / s.total ≤ 1 := by
    rw [div_le_one htr, hsumr]
    nlinarith [Nat.cast_nonneg (α := ℝ) s.tails, Nat.cast_nonneg (α := ℝ) s.edge]
  have ht1 : (s.tails : ℝ) / s.total ≤ 1 := by
    rw [div_le_one htr, hsumr]
    nlinarith [Nat.cast_nonneg (α := ℝ) s.heads, Nat.cast_nonneg (α := ℝ) s.edge]
  refine ⟨_, calculateEntropy_eq s ht, ?_, ?_⟩
  · exact add_nonneg (entropyTerm_nonneg _ hh0 hh1) (entropyTerm_nonneg _ ht0 ht1)
  · intro he
    apply entropyTerm_add_le_one
    rw [he, Nat.cast_zero, add_zero] at hsumr
    rw [← add_div, ← hsumr]
    exact div_self (ne_of_gt htr)

/-- Witness for C1 (amended): six tosses, five heads and one tail. -/
theorem calculateEntropy_bounds_witness :
    ∃ e, calculateEntropy ⟨6, 5, 1, 0, [.Heads, .Heads, .Heads, .Tails, .Heads, .Heads]⟩ = some e ∧
      0 ≤ e ∧ ((0 : Nat) = 0 → e ≤ 1) :=
  calculateEntropy_bounds ⟨6, 5, 1, 0, [.Heads, .Heads, .Heads, .Tails, .Heads, .Heads]⟩
    (by decide) (by decide)

theorem isMaximalRuns_maximalRuns (l : List Outcome) : IsMaximalRuns (maximalRuns l) l := by
  induction l with
  | nil => simp [maximalRuns, IsMaximalRuns]
  | cons x xs ih =>
    obtain ⟨hj, hr, hc⟩ := ih
    unfold maximalRuns
    rcases hm : maximalRuns xs with _ | ⟨r, rs⟩
    · rw [hm] at hj
      simp at hj
      subst hj
      simp [IsMaximalRuns]
    · rw [hm] at hj hr hc
      rcases r with _ | ⟨y, ys⟩
      · exact absurd rfl (hr [] (by simp)).1
      · simp only
        have hrun := (hr (y :: ys) (by simp)).2
        split_ifs with hxy
        · subst hxy
          refine ⟨by simpa using hj, ?_, ?_⟩
          · intro r hrmem
            rcases List.mem_cons.mp hrmem with h | h
            · subst h
              refine ⟨by simp, ?_⟩
              have hall : ∀ z ∈ x :: x :: ys, z = x := by
                intro z hz
                rcases List.mem_cons.mp hz with h | h
                · exact h
                · exact hrun z h x (by simp)
              intro a ha b hb
              rw [hall a ha, hall b hb]
            · exact hr r (List.mem_cons_of_mem _ h)
          · cases rs with
            | nil => simp
            | cons r2 rs2 =>
              intro p hp
              simp only [List.tail_cons, List.zip_cons_cons, List.mem_cons] at hp hc
              rcases hp with h | h
              · subst h
                simpa using hc _ (Or.inl rfl)
              · exact hc p (Or.inr h)
        · refine ⟨by simpa using hj, ?_, ?_⟩
          · intro r hrmem
            rcases List.mem_cons.mp hrmem with h | h
            · subst h
              simp
            · exact hr r h
          · intro p hp
            simp only [List.tail_cons, List.zip_cons_cons, List.mem_cons] at hp
            rcases hp with h | h
            · subst h
              simpa using hxy
            · exact hc p h

theorem run_eq_replicate (r : List Outcome) (hne : r ≠ [])
    (hc : ∀ x ∈ r, ∀ y ∈ r, x = y) : ∃ x k, r = x :: List.replicate k x := by
  cases r with
  | nil => exact absurd rfl hne
  | cons x xs =>
    refine ⟨x, xs.length, ?_⟩
    congr 1
    exact List.eq_replicate_iff.mpr ⟨rfl, fun b hb => hc b (List.mem_cons_of_mem _ hb) x (by simp)⟩

theorem runsAfter_cons {c : Outcome} {r : List Outcome} {rs : List (List Outcome)}
    (h : RunsAfter c (r :: rs)) :
    ∃ y k, r = y :: List.replicate k y ∧ y ≠ c ∧ RunsAfter y rs := by
  obtain ⟨hr, hz, hh⟩ := h
  obtain ⟨y, k, rfl⟩ := run_eq_replicate r (hr r (by simp)).1 (hr r (by simp)).2
  refine ⟨y, k, rfl, ?_, ?_, ?_, ?_⟩
  · simpa using hh
  · intro r hrm
    exact hr r (List.mem_cons_of_mem _ hrm)
  · cases rs with
    | nil => simp
    | cons r2 rs2 =>
      intro p hp
      apply hz
      simp only [List.tail_cons, List.zip_cons_cons, List.mem_cons]
      exact Or.inr hp
  · cases rs with
    | nil => simp
    | cons r2 rs2 =>
      have := hz (y :: List.replicate k y, r2) (by simp)
      simpa [eq_comm] using this

theorem isMaximalRuns_cons {h : Outcome} {rest : List Outcome} {rs : List (List Outcome)}
    (hrs : IsMaximalRuns rs (h :: rest)) :
    ∃ k rs1, rs = (h :: List.replicate k h) :: rs1 ∧
      rest = List.replicate k h ++ rs1.flatten ∧ RunsAfter h rs1 := by
  obtain ⟨hj, hr, hz⟩ := hrs
  cases rs with
  | nil => simp at hj
  | cons r rs1 =>
    obtain ⟨y, k, rfl⟩ := run_eq_replicate r (hr r (by simp)).1 (hr r (by simp)).2
    simp only [List.flatten_cons, List.cons_append, List.cons.injEq] at hj
    obtain ⟨rfl, hrest⟩ := hj
    refine ⟨k, rs1, rfl, hrest.symm, ?_, ?_, ?_⟩
    · intro r hrm
      exact hr r (List.mem_cons_of_mem _ hrm)
    · cases rs1 with
      | nil => simp
      | cons r2 rs2 =>
        intro p hp
        apply hz
        simp only [List.tail_cons, List.zip_cons_cons, List.mem_cons]
        exact Or.inr hp
    · cases rs1 with
      | nil => simp
      | cons r2 rs2 =>
        have := hz (y :: List.replicate k y, r2) (by simp)
        simpa [eq_comm] using this

theorem foldl_averageStep_replicate (k : Nat) (st : AverageScan) :
    (List.replicate k st.currentResult).foldl averageStep st =
      { st with currentStreak := st.currentStreak + k } := by
  induction k generalizing st with
  | zero => simp
  | succ k ih =>
    have hstep : averageStep st st.currentResult =
        { st with currentStreak := st.currentStreak + 1 } := by simp [averageStep]
    rw [List.replicate_succ, List.foldl_cons, hstep]
    have := ih { st with currentStreak := st.currentStreak + 1 }
    simp only at this
    rw [this]
    simp [Nat.add_assoc, Nat.add_comm 1 k]

theorem averageScan_runs (rs : List (List Outcome)) :
    ∀ st : AverageScan, RunsAfter st.currentResult rs →
      (rs.flatten.foldl averageStep st).streaks ++ [(rs.flatten.foldl averageStep st).currentStreak]
        = st.streaks ++ [st.currentStreak] ++ rs.map List.length := by
  induction rs with
  | nil => intro st _; simp
  | cons r rs ih =>
    intro st h
    obtain ⟨y, k, rfl, hy, hrest⟩ := runsAfter_cons h
    have hstep : averageStep st y =
        { streaks := st.streaks ++ [st.currentStreak], currentStreak := 1, currentResult := y } := by
      simp [averageStep, hy]
    rw [List.flatten_cons, List.foldl_append, List.foldl_cons, hstep]
    have hrep := foldl_averageStep_replicate k
      { streaks := st.streaks ++ [st.currentStreak], currentStreak := 1, currentResult := y }
    simp only at hrep
    rw [hrep, ih _ hrest]
    simp [Nat.add_comm]

theorem foldl_longestStep_replicate (k : Nat) (st : LongestScan)
    (hle : st.currentStreak ≤ st.maxStreak) :
    (List.replicate k st.currentResult).foldl longestStep st =
      { st with currentStreak := st.currentStreak + k,
                maxStreak := max st.maxStreak (st.currentStreak + k) } := by
  induction k generalizing st with
  | zero => simp [hle]
  | succ k ih =>
    have hstep : longestStep st st.currentResult =
        { st with currentStreak := st.currentStreak + 1,
                  maxStreak := max st.maxStreak (st.currentStreak + 1) } := by
      simp [longestStep]
    rw [List.replicate_succ, List.foldl_cons, hstep]
    have := ih { st with currentStreak := st.currentStreak + 1,
                         maxStreak := max st.maxStreak (st.currentStreak + 1) }
      (le_max_right _ _)
    simp only at this
    rw [this]
    simp only [LongestScan.mk.injEq, and_true]
    omega

theorem longestScan_runs (rs : List (List Outcome)) :
    ∀ st : LongestScan, RunsAfter st.currentResult rs → 1 ≤ st.currentStreak →
      st.currentStreak ≤ st.maxStreak →
      (rs.flatten.foldl longestStep st).maxStreak
        = max st.maxStreak ((rs.map List.length).foldr max 0) := by
  induction rs with
  | nil => intro st _ _ _; simp
  | cons r rs ih =>
    intro st h h1 hle
    obtain ⟨y, k, rfl, hy, hrest⟩ := runsAfter_cons h
    have hstep : longestStep st y = { st with currentStreak := 1, currentResult := y } := by
      simp [longestStep, hy]
    rw [List.flatten_cons, List.foldl_append, List.foldl_cons, hstep]
    have hrep := foldl_longestStep_replicate k
      { st with currentStreak := 1, currentResult := y } (le_trans h1 hle)
    simp only at hrep
    rw [hrep, ih _ hrest (by simp) (by simp)]
    simp only [List.map_cons, List.foldr_cons, List.length_cons, List.length_replicate]
    omega

theorem le_foldr_max (ns : List Nat) : ∀ n ∈ ns, n ≤ ns.foldr max 0 := by
  induction ns with
  | nil => simp
  | cons a as ih =>
    intro n hn
    rcases List.mem_cons.mp hn with h | h
    · subst h
      exact le_max_left _ _
    · exact le_trans (ih n h) (le_max_right _ _)

theorem foldr_max_mem (ns : List Nat) (hne : ns ≠ []) : ns.foldr max 0 ∈ ns := by
  induction ns with
  | nil => exact absurd rfl hne
  | cons a as ih =>
    cases as with
    | nil => simp
    | cons b bs =>
      have := ih (by simp)
      rw [List.foldr_cons]
      rcases max_choice a ((b :: bs).foldr max 0) with h | h
      · rw [h]; simp
      · rw [h]; exact List.mem_cons_of_mem _ this

theorem findLongestStreak_cons (s : TossStats) (h : Outcome) (rest : List Outcome)
    (hs : s.history = h :: rest) (rs : List (List Outcome))
    (hrs : IsMaximalRuns rs s.history) :
    findLongestStreak s = (rs.map List.length).foldr max 0 := by
  rw [hs] at hrs
  obtain ⟨k, rs1, rfl, hrest, hruns⟩ := isMaximalRuns_cons hrs
  unfold findLongestStreak
  rw [hs]
  simp only
  rw [hrest, List.foldl_append]
  have hrep := foldl_longestStep_replicate k ⟨1, 1, h⟩ (le_refl _)
  simp only at hrep
  rw [hrep, longestScan_runs rs1 _ hruns (by simp) (by simp)]
  simp only [List.map_cons, List.foldr_cons, List.length_cons, List.length_replicate]
  omega

theorem collectStreaks_eq (h : Outcome) (rest : List Outcome) (rs : List (List Outcome))
    (hrs : IsMaximalRuns rs (h :: rest)) :
    collectStreaks h rest = rs.map List.length := by
  obtain ⟨k, rs1, rfl, hrest, hruns⟩ := isMaximalRuns_cons hrs
  unfold collectStreaks
  simp only
  rw [hrest, List.foldl_append]
  have hrep := foldl_averageStep_replicate k ⟨[], 1, h⟩
  simp only at hrep
  rw [hrep, averageScan_runs rs1 _ hruns]
  simp [Nat.add_comm]

theorem foldl_add_eq_sum (ns : List Nat) (a : Nat) :
    ns.foldl (fun sum streak => sum + streak) a = a + ns.sum := by
  induction ns generalizing a with
  | nil => simp
  | cons n ns ih => rw [List.foldl_cons, ih, List.sum_cons, Nat.add_assoc]

/-- The history of the spec's concrete scenario: H H H T H H. -/
theorem scenario_runs :
    IsMaximalRuns [[.Heads, .Heads, .Heads], [.Tails], [.Heads, .Heads]]
      [.Heads, .Heads, .Heads, .Tails, .Heads, .Heads] := by
  decide

theorem findLongestStreak_eq_longestRun (s : TossStats) :
    findLongestStreak s = longestRun s.history := by
  rcases hs : s.history with _ | ⟨h, rest⟩
  · simp [findLongestStreak, hs, longestRun, maximalRuns]
  · have := findLongestStreak_cons s h rest hs (maximalRuns s.history)
      (isMaximalRuns_maximalRuns s.history)
    rw [this, hs]
    rfl

theorem replicate_prefix_le (a : Outcome) (rest : List Outcome)
    (hrest : ∀ h ∈ rest.head?, h ≠ a) :
    ∀ k m : Nat, List.replicate m a <+: List.replicate k a ++ rest → m ≤ k := by
  intro k
  induction k with
  | zero =>
    intro m hm
    cases m with
    | zero => exact le_refl _
    | succ m =>
      exfalso
      rw [List.replicate_zero, List.nil_append, List.replicate_succ] at hm
      cases rest with
      | nil => simp at hm
      | cons y ys =>
        rw [List.cons_prefix_cons] at hm
        exact hrest y (by simp) hm.1.symm
  | succ k ih =>
    intro m hm
    cases m with
    | zero => exact Nat.zero_le _
    | succ m =>
      rw [List.replicate_succ, List.replicate_succ, List.cons_append,
        List.cons_prefix_cons] at hm
      exact Nat.succ_le_succ (ih m hm.2)

theorem head_flatten_of_runsAfter (a : Outcome) (rs : List (List Outcome))
    (h : RunsAfter a rs) : ∀ y ∈ rs.flatten.head?, y ≠ a := by
  cases rs with
  | nil => simp
  | cons r rs1 =>
    obtain ⟨y, k, rfl, hy, _⟩ := runsAfter_cons h
    intro z hz
    simp only [List.flatten_cons, List.cons_append, List.head?_cons, Option.mem_def,
      Option.some.injEq] at hz
    rw [← hz]
    exact hy

theorem replicate_prefix_le_longestRun (l : List Outcome) (x : Outcome) (n : Nat)
    (h : List.replicate n x <+: l) : n ≤ longestRun l := by
  cases l with
  | nil =>
    have := List.prefix_nil.mp h
    cases n with
    | zero => exact Nat.zero_le _
    | succ n => simp [List.replicate_succ] at this
  | cons a rest =>
    cases n with
    | zero => exact Nat.zero_le _
    | succ m =>
      rw [List.replicate_succ, List.cons_prefix_cons] at h
      obtain ⟨hxa, hpre⟩ := h
      subst hxa
      obtain ⟨k, rs1, hrs, hrest, hruns⟩ :=
        isMaximalRuns_cons (isMaximalRuns_maximalRuns (x :: rest))
      rw [hrest] at hpre
      have hmk := replicate_prefix_le x rs1.flatten (head_flatten_of_runsAfter x rs1 hruns) k m hpre
      unfold longestRun
      rw [hrs]
      simp only [List.map_cons, List.foldr_cons, List.length_cons, List.length_replicate]
      omega

theorem longestRun_le_cons (a : Outcome) (l : List Outcome) :
    longestRun l ≤ longestRun (a :: l) := by
  have hspec := isMaximalRuns_maximalRuns l
  unfold longestRun
  rw [maximalRuns]
  rcases hm : maximalRuns l with _ | ⟨r, rs⟩
  · simp
  · rcases r with _ | ⟨y, ys⟩
    · rw [hm] at hspec
      exact absurd rfl (hspec.2.1 [] (by simp)).1
    · simp only
      split_ifs
      · simp only [List.map_cons, List.foldr_cons, List.length_cons]
        omega
      · simp only [List.map_cons, List.foldr_cons, List.length_cons]
        omega

theorem replicate_infix_le_longestRun (l : List Outcome) (x : Outcome) (n : Nat)
    (h : List.replicate n x <:+: l) : n ≤ longestRun l := by
  induction l with
  | nil =>
    have := List.infix_nil.mp h
    cases n with
    | zero => exact Nat.zero_le _
    | succ n => simp [List.replicate_succ] at this
  | cons a rest ih =>
    rcases List.infix_cons_iff.mp h with hpre | hin
    · exact replicate_prefix_le_longestRun _ x n hpre
    · exact le_trans (ih hin) (longestRun_le_cons a rest)

/-- C2: for every history, `findLongestStreak` returns the maximum length of a run of
consecutive equal outcomes: no block of `n` equal consecutive outcomes in the history has `n`
above the returned value, and the history contains a block of exactly that many equal
outcomes; equivalently the value is the largest length among the maximal runs of any division
of the history into maximal runs. The empty history gives 0, and H H H T H H gives 3. -/
theorem findLongestStreak_is_longest_run (s : TossStats) :
    (∀ x n, List.replicate n x <:+: s.history → n ≤ findLongestStreak s) ∧
    (∃ x, List.replicate (findLongestStreak s) x <:+: s.history) ∧
    (∃ rs, IsMaximalRuns rs s.history) ∧
    (∀ rs, IsMaximalRuns rs s.history →
      (∀ r ∈ rs, r.length ≤ findLongestStreak s) ∧
      (s.history ≠ [] → ∃ r ∈ rs, r.length = findLongestStreak s)) ∧
    (s.history = [] → findLongestStreak s = 0) ∧
    findLongestStreak ⟨6, 5, 1, 0, [.Heads, .Heads, .Heads, .Tails, .Heads, .Heads]⟩ = 3 := by
  have hruns : ∀ rs, IsMaximalRuns rs s.history →
      (∀ r ∈ rs, r.length ≤ findLongestStreak s) ∧
      (s.history ≠ [] → ∃ r ∈ rs, r.length = findLongestStreak s) := by
    intro rs hrs
    rcases hs : s.history with _ | ⟨h, rest⟩
    · have hflat : rs.flatten = [] := by rw [hrs.1, hs]
      have hnil : rs = [] := by
        cases rs with
        | nil => rfl
        | cons r rs1 =>
          rw [List.flatten_cons, List.append_eq_nil] at hflat
          exact absurd hflat.1 (hrs.2.1 r (by simp)).1
      subst hnil
      simp
    · have heq := findLongestStreak_cons s h rest hs rs hrs
      refine ⟨?_, ?_⟩
      · intro r hr
        rw [heq]
        exact le_foldr_max _ _ (List.mem_map_of_mem _ hr)
      · intro _
        have hne : rs.map List.length ≠ [] := by
          intro hmap
          have hnil : rs = [] := List.map_eq_nil_iff.mp hmap
          have hflat := hrs.1
          rw [hnil, hs] at hflat
          simp at hflat
        have hmem := foldr_max_mem _ hne
        rw [← heq] at hmem
        obtain ⟨r, hr, hlen⟩ := List.mem_map.mp hmem
        exact ⟨r, hr, hlen⟩
  refine ⟨?_, ?_, ⟨_, isMaximalRuns_maximalRuns s.history⟩, hruns, ?_, by decide⟩
  · intro x n hin
    rw [findLongestStreak_eq_longestRun]
    exact replicate_infix_le_longestRun _ x n hin
  · by_cases hne : s.history = []
    · refine ⟨default, ?_⟩
      simp [findLongestStreak, hne]
    · have hmax := isMaximalRuns_maximalRuns s.history
      obtain ⟨r, hr, hlen⟩ := (hruns _ hmax).2 hne
      obtain ⟨x, k, hrep⟩ := run_eq_replicate r (hmax.2.1 r hr).1 (hmax.2.1 r hr).2
      refine ⟨x, ?_⟩
      have hin : r <:+: (maximalRuns s.history).flatten := List.infix_of_mem_flatten hr
      rw [hmax.1] at hin
      rw [← hlen, hrep]
      rw [hrep] at hin
      simpa [List.replicate_succ] using hin
  · intro hs
    simp [findLongestStreak, hs]

/-- C4: on the empty state `getStatisticalSummary` returns the three frequencies, chiSquared,
entropy, longestStreak and averageStreak all equal to 0; every numeric field is a finite value
(`some`), so no division by zero happened and no NaN or Infinity was produced. -/
theorem getStatisticalSummary_empty :
    (getStatisticalSummary emptyStats).headsFrequency = some 0 ∧
    (getStatisticalSummary emptyStats).tailsFrequency = some 0 ∧
    (getStatisticalSummary emptyStats).edgeFrequency = some 0 ∧
    (getStatisticalSummary emptyStats).chiSquared = some 0 ∧
    (getStatisticalSummary emptyStats).entropy = some 0 ∧
    (getStatisticalSummary emptyStats).longestStreak = 0 ∧
    (getStatisticalSummary emptyStats).averageStreak = some 0 := by
  simp [getStatisticalSummary, emptyStats, calculateChiSquared, calculateEntropy,
    findLongestStreak, calculateAverageStreak]

theorem roundHalfEven_intCast (z : ℤ) : roundHalfEven (z : ℚ) = z := by
  unfold roundHalfEven
  simp

theorem log_lt_of_abs_lt (q : ℚ) (hq : q ≠ 0) (x : ℤ) (h : |q| < (2 : ℚ) ^ x) :
    Int.log 2 |q| < x := by
  have hpos : 0 < |q| := abs_pos.mpr hq
  have := (Int.lt_zpow_iff_log_lt (R := ℚ) (b := 2) (by norm_num) (x := x) hpos).mp
    (by simpa using h)
  exact this

/-- A dyadic rational with a mantissa below 2^53 and at most 1074 binary places is a double. -/
theorem roundDouble_dyadic (j : ℤ) (t : ℕ) (hj : |j| < 2 ^ 53) (ht : t ≤ 1074) :
    roundDouble ((j : ℚ) / 2 ^ t) = some ((j : ℚ) / 2 ^ t) := by
  by_cases hj0 : j = 0
  · subst hj0
    simp [roundDouble]
  have hjq : (j : ℚ) ≠ 0 := by exact_mod_cast hj0
  have hq : (j : ℚ) / 2 ^ t ≠ 0 := div_ne_zero hjq (by positivity)
  have habs : |(j : ℚ) / 2 ^ t| < (2 : ℚ) ^ ((53 : ℤ) - t) := by
    rw [abs_div, abs_of_pos (show (0 : ℚ) < 2 ^ t by positivity), zpow_sub₀ (by norm_num),
      zpow_natCast]
    apply div_lt_div_of_pos_right _ (by positivity)
    have : ((|j| : ℤ) : ℚ) < ((2 ^ 53 : ℤ) : ℚ) := by exact_mod_cast hj
    rw [Int.cast_abs] at this
    rw [zpow_ofNat]
    exact_mod_cast this
  have hlog := log_lt_of_abs_lt _ hq _ habs
  set e : ℤ := max (Int.log 2 |(j : ℚ) / 2 ^ t|) (-1022) with he
  have hn : 0 ≤ 52 - e - (t : ℤ) := by
    have h1 : e ≤ 52 - t := by
      rw [he]
      apply max_le
      · omega
      · omega
    omega
  obtain ⟨n, hn'⟩ := Int.eq_ofNat_of_zero_le hn
  have hdiv : (j : ℚ) / 2 ^ t / (2 : ℚ) ^ (e - 52) = ((j * 2 ^ n : ℤ) : ℚ) := by
    have hexp : (2 : ℚ) ^ (e - 52) = 2 ^ (-(t : ℤ)) / 2 ^ (n : ℤ) := by
      rw [← zpow_sub₀ (by norm_num)]
      congr 1
      omega
    rw [hexp, zpow_neg, zpow_natCast, zpow_natCast]
    push_cast
    field_simp
    ring
  have hr : ((roundHalfEven ((j : ℚ) / 2 ^ t / (2 : ℚ) ^ (e - 52)) : ℤ) : ℚ) * (2 : ℚ) ^ (e - 52)
      = (j : ℚ) / 2 ^ t := by
    rw [hdiv, roundHalfEven_intCast, ← hdiv]
    field_simp
    ring
  have hlt : |(j : ℚ) / 2 ^ t| < 2 ^ (1024 : ℕ) := by
    rw [abs_div, abs_of_pos (show (0 : ℚ) < 2 ^ t by positivity)]
    have h1 : |(j : ℚ)| < 2 ^ 53 := by
      have : ((|j| : ℤ) : ℚ) < ((2 ^ 53 : ℤ) : ℚ) := by exact_mod_cast hj
      rw [Int.cast_abs] at this
      exact_mod_cast this
    have h2 : (1 : ℚ) ≤ 2 ^ t := one_le_pow₀ (by norm_num)
    calc |(j : ℚ)| / 2 ^ t ≤ |(j : ℚ)| := div_le_self (abs_nonneg _) h2
      _ < 2 ^ 53 := h1
      _ ≤ 2 ^ 1024 := by norm_num
  unfold roundDouble
  rw [if_neg hq]
  simp only
  rw [← he, hr, if_pos hlt]

theorem roundDouble_natCast (n : ℕ) (hn : n < 2 ^ 53) : roundDouble (n : ℚ) = some (n : ℚ) := by
  have := roundDouble_dyadic (n : ℤ) 0 (by simpa using (by exact_mod_cast hn : (n : ℤ) < 2 ^ 53)) (by norm_num)
  simpa using this

theorem roundHalfEven_abs_sub_le (x : ℚ) : |((roundHalfEven x : ℤ) : ℚ) - x| ≤ 1 / 2 := by
  have h0 : 0 ≤ x - ⌊x⌋ := sub_nonneg.mpr (Int.floor_le x)
  have h1 : x - ⌊x⌋ < 1 := by linarith [Int.lt_floor_add_one x]
  unfold roundHalfEven
  split_ifs with ha hb hc
  · rw [abs_le]
    constructor <;> linarith
  · rw [abs_le]
    push_cast
    constructor <;> linarith
  · rw [abs_le]
    constructor <;> linarith
  · rw [abs_le]
    push_cast
    constructor <;> linarith

theorem roundHalfEven_of_abs_sub_lt (x : ℚ) (z : ℤ) (h : |x - z| < 1 / 2) :
    roundHalfEven x = z := by
  rw [abs_lt] at h
  obtain ⟨hl, hu⟩ := h
  rcases le_or_lt (z : ℚ) x with hzx | hxz
  · have hfl : ⌊x⌋ = z := Int.floor_eq_iff.mpr ⟨hzx, by linarith⟩
    unfold roundHalfEven
    rw [hfl, if_pos (by linarith)]
  · have hfl : ⌊x⌋ = z - 1 := Int.floor_eq_iff.mpr ⟨by push_cast; linarith, by push_cast; linarith⟩
    unfold roundHalfEven
    rw [hfl, if_neg (by push_cast; linarith), if_pos (by push_cast; linarith)]
    ring

theorem log_eq_of_bounds (q : ℚ) (e : ℤ) (hlo : (2 : ℚ) ^ e ≤ |q|) (hhi : |q| < (2 : ℚ) ^ (e + 1)) :
    Int.log 2 |q| = e := by
  have hpos : 0 < |q| := lt_of_lt_of_le (by positivity) hlo
  have h1 : e ≤ Int.log 2 |q| :=
    (Int.zpow_le_iff_le_log (R := ℚ) (b := 2) (by norm_num) hpos).mp (by simpa using hlo)
  have h2 : Int.log 2 |q| < e + 1 :=
    (Int.lt_zpow_iff_log_lt (R := ℚ) (b := 2) (by norm_num) hpos).mp (by simpa using hhi)
  omega

/-- How `roundDouble` acts on a number of the normal range whose scaled value has a unique
nearest integer. -/
theorem roundDouble_eq_of_nearest (q : ℚ) (e : ℤ) (z : ℤ) (hlo : (2 : ℚ) ^ e ≤ |q|)
    (hhi : |q| < (2 : ℚ) ^ (e + 1)) (he : -1022 ≤ e)
    (hz : |q / (2 : ℚ) ^ (e - 52) - z| < 1 / 2) :
    roundDouble q =
      if |(z : ℚ) * (2 : ℚ) ^ (e - 52)| < 2 ^ (1024 : ℕ) then some ((z : ℚ) * (2 : ℚ) ^ (e - 52))
      else none := by
  have hq : q ≠ 0 := by
    intro h0
    rw [h0, abs_zero] at hlo
    exact absurd hlo (not_le.mpr (by positivity))
  unfold roundDouble
  rw [if_neg hq]
  simp only
  rw [log_eq_of_bounds q e hlo hhi, max_eq_left he, roundHalfEven_of_abs_sub_lt _ z hz]

/-- In the normal range `roundDouble` returns a finite number within relative error `2^-53`. -/
theorem roundDouble_near (q : ℚ) (hlo : (2 : ℚ) ^ (-1022 : ℤ) ≤ |q|)
    (hhi : |q| < (2 : ℚ) ^ (1023 : ℤ)) :
    ∃ r, roundDouble q = some r ∧ |r - q| ≤ |q| / 2 ^ 53 := by
  have hpos : 0 < |q| := lt_of_lt_of_le (by positivity) hlo
  have hq : q ≠ 0 := abs_pos.mp hpos
  have hL1 : (-1022 : ℤ) ≤ Int.log 2 |q| :=
    (Int.zpow_le_iff_le_log (R := ℚ) (b := 2) (by norm_num) hpos).mp (by simpa using hlo)
  have hL2 : Int.log 2 |q| < 1023 :=
    (Int.lt_zpow_iff_log_lt (R := ℚ) (b := 2) (by norm_num) hpos).mp (by simpa using hhi)
  have hle : (2 : ℚ) ^ (Int.log 2 |q|) ≤ |q| := by
    simpa using Int.zpow_log_le_self (R := ℚ) (b := 2) (by norm_num) hpos
  set e : ℤ := Int.log 2 |q| with he
  have hulp : (0 : ℚ) < 2 ^ (e - 52) := by positivity
  have hhalf : (2 : ℚ) ^ (e - 52) / 2 ≤ |q| / 2 ^ 53 := by
    have : (2 : ℚ) ^ (e - 52) = 2 ^ e / 2 ^ (52 : ℤ) := zpow_sub₀ (by norm_num) e 52
    rw [this]
    have h52 : ((2 : ℚ) ^ (52 : ℤ)) = 2 ^ 52 := by norm_num
    rw [h52, div_div, div_le_div_iff₀ (by positivity) (by positivity)]
    have : (2 : ℚ) ^ 52 * 2 = 2 ^ 53 := by norm_num
    rw [this]
    exact mul_le_mul_of_nonneg_right hle (by positivity)
  have herr : |((roundHalfEven (q / 2 ^ (e - 52)) : ℤ) : ℚ) * 2 ^ (e - 52) - q|
      ≤ 2 ^ (e - 52) / 2 := by
    have h1 := roundHalfEven_abs_sub_le (q / 2 ^ (e - 52))
    have h2 : ((roundHalfEven (q / 2 ^ (e - 52)) : ℤ) : ℚ) * 2 ^ (e - 52) - q
        = (((roundHalfEven (q / 2 ^ (e - 52)) : ℤ) : ℚ) - q / 2 ^ (e - 52)) * 2 ^ (e - 52) := by
      field_simp
    rw [h2, abs_mul, abs_of_pos hulp]
    calc |((roundHalfEven (q / 2 ^ (e - 52)) : ℤ) : ℚ) - q / 2 ^ (e - 52)| * 2 ^ (e - 52)
        ≤ 1 / 2 * 2 ^ (e - 52) := mul_le_mul_of_nonneg_right h1 hulp.le
      _ = 2 ^ (e - 52) / 2 := by ring
  have hfin : |((roundHalfEven (q / 2 ^ (e - 52)) : ℤ) : ℚ) * 2 ^ (e - 52)| < 2 ^ (1024 : ℕ) := by
    have h3 : |((roundHalfEven (q / 2 ^ (e - 52)) : ℤ) : ℚ) * 2 ^ (e - 52)|
        ≤ |q| + |q| / 2 ^ 53 := by
      have := abs_sub_abs_le_abs_sub (((roundHalfEven (q / 2 ^ (e - 52)) : ℤ) : ℚ) * 2 ^ (e - 52)) q
      linarith [herr.trans hhalf]
    have h4 : |q| / 2 ^ 53 ≤ |q| := div_le_self hpos.le (one_le_pow₀ (by norm_num))
    have h5 : ((2 : ℚ) ^ (1023 : ℤ)) * 2 = 2 ^ (1024 : ℕ) := by norm_num
    linarith
  refine ⟨_, ?_, herr.trans hhalf⟩
  unfold roundDouble
  rw [if_neg hq]
  simp only
  rw [← he, max_eq_left hL1, if_pos hfin]

theorem roundDouble_four_thirds : roundDouble (4 / 3) = some fourThirdsDouble := by
  unfold fourThirdsDouble
  have h := roundDouble_eq_of_nearest (4 / 3) 0 6004799503160661
    (by rw [abs_of_pos (by norm_num)]; norm_num)
    (by rw [abs_of_pos (by norm_num)]; norm_num) (by norm_num)
    (by
      rw [abs_lt]
      constructor <;> norm_num)
  rw [h, if_pos (by rw [abs_of_pos (by norm_num)]; norm_num)]
  norm_num

theorem roundDouble_near_nonneg (q : ℚ) (h0 : q = 0 ∨ (2 : ℚ) ^ (-1022 : ℤ) ≤ q)
    (hhi : q < (2 : ℚ) ^ (1023 : ℤ)) :
    ∃ r, roundDouble q = some r ∧ |r - q| ≤ q / 2 ^ 53 := by
  rcases h0 with rfl | hlo
  · exact ⟨0, by simp [roundDouble], by simp⟩
  · have hpos : 0 < q := lt_of_lt_of_le (by positivity) hlo
    have := roundDouble_near q (by rwa [abs_of_pos hpos]) (by rwa [abs_of_pos hpos])
    rwa [abs_of_pos hpos] at this

theorem foldlM_addDouble (ns : List Nat) :
    ∀ acc : Nat, acc + ns.sum < 2 ^ 53 →
      ns.foldlM (fun (sum : ℚ) (streak : ℕ) => addDouble sum (streak : ℚ)) (acc : ℚ)
        = some ((acc + ns.sum : ℕ) : ℚ) := by
  induction ns with
  | nil => intro acc _; simp
  | cons n ns ih =>
    intro acc hlt
    rw [List.sum_cons, ← Nat.add_assoc] at hlt
    have hstep : addDouble (acc : ℚ) (n : ℚ) = some ((acc + n : ℕ) : ℚ) := by
      unfold addDouble
      rw [← Nat.cast_add]
      exact roundDouble_natCast _ (lt_of_le_of_lt (Nat.le_add_right _ _) hlt)
    rw [List.foldlM_cons, hstep]
    simp only [Option.bind_eq_bind, Option.some_bind]
    rw [ih (acc + n) hlt, List.sum_cons, Nat.add_assoc]

theorem length_le_sum_lengths (rs : List (List Outcome)) (h : ∀ r ∈ rs, r ≠ []) :
    rs.length ≤ (rs.map List.length).sum := by
  induction rs with
  | nil => simp
  | cons r rs ih =>
    have hr : 1 ≤ r.length := by
      have := h r (by simp)
      exact Nat.one_le_iff_ne_zero.mpr (fun h0 => this (List.length_eq_zero.mp h0))
    have := ih (fun r hr => h r (List.mem_cons_of_mem _ hr))
    simp only [List.length_cons, List.map_cons, List.sum_cons]
    omega

theorem calculateAverageStreak_eq (s : TossStats) (hlen : s.history.length < 2 ^ 53)
    (rs : List (List Outcome)) (hrs : IsMaximalRuns rs s.history) (hne : s.history ≠ []) :
    calculateAverageStreak s
      = roundDouble (((rs.map List.length).sum : ℕ) / (rs.length : ℕ)) := by
  rcases hs : s.history with _ | ⟨h, rest⟩
  · exact absurd hs hne
  · have hsum : (rs.map List.length).sum = s.history.length := by
      rw [← hrs.1, List.length_flatten]
    rw [hs] at hrs
    have hcs := collectStreaks_eq h rest rs hrs
    have hnil : rs ≠ [] := by
      intro hnil
      have hflat := hrs.1
      rw [hnil] at hflat
      simp at hflat
    have hlenq : ((rs.length : ℕ) : ℚ) ≠ 0 := by
      have : rs.length ≠ 0 := fun h0 => hnil (List.length_eq_zero.mp h0)
      exact_mod_cast this
    have hfold := foldlM_addDouble (rs.map List.length) 0 (by rw [Nat.zero_add, hsum]; exact hlen)
    unfold calculateAverageStreak
    rw [hs]
    simp only
    rw [hcs]
    simp only [Nat.cast_zero] at hfold
    rw [hfold]
    simp only [Option.bind_eq_bind, Option.some_bind, Nat.zero_add, List.length_map]
    unfold divDouble
    rw [if_neg hlenq]

/-- C3, as stated, fails: H H T H has the maximal runs H H, T, H of lengths 2, 1, 1, whose exact
mean is 4/3, and `calculateAverageStreak` returns the double nearest to it,
1.3333333333333333, which is not 4/3. -/
theorem calculateAverageStreak_rounds :
    IsMaximalRuns [[.Heads, .Heads], [.Tails], [.Heads]] threeRunStats.history ∧
    calculateAverageStreak threeRunStats = some fourThirdsDouble ∧
    fourThirdsDouble ≠ ((2 + 1 + 1 : ℕ) : ℚ) / ((3 : ℕ) : ℚ) := by
  have hruns : IsMaximalRuns [[.Heads, .Heads], [.Tails], [.Heads]] threeRunStats.history := by
    decide
  refine ⟨hruns, ?_, ?_⟩
  · rw [calculateAverageStreak_eq threeRunStats (by simp [threeRunStats]) _ hruns
      (by simp [threeRunStats])]
    have h43 : (((([[Outcome.Heads, Outcome.Heads], [Outcome.Tails], [Outcome.Heads]] :
        List (List Outcome)).map List.length).sum : ℕ) : ℚ)
        / ((([[Outcome.Heads, Outcome.Heads], [Outcome.Tails], [Outcome.Heads]] :
        List (List Outcome)).length : ℕ) : ℚ) = 4 / 3 := by
      norm_num
    rw [h43]
    exact roundDouble_four_thirds
  · unfold fourThirdsDouble
    norm_num

/-- C3 (amended): for every history (shorter than 2^53 entries, as every JavaScript array is),
`calculateAverageStreak` returns the mean of the lengths of the maximal runs, their sum divided
by their number, rounded to the nearest double, for any division of a non-empty history into
maximal runs (one always exists); the returned value is finite and differs from the exact mean
by at most the mean times 2^-53. The empty history gives 0, and H H H T H H gives exactly
(3+1+2)/3 = 2. -/
theorem calculateAverageStreak_rounded_mean (s : TossStats)
    (hlen : s.history.length < 2 ^ 53) :
    (∃ rs, IsMaximalRuns rs s.history) ∧
    (∀ rs, IsMaximalRuns rs s.history → s.history ≠ [] →
      calculateAverageStreak s
        = roundDouble (((rs.map List.length).sum : ℕ) / (rs.length : ℕ)) ∧
      ∃ r, calculateAverageStreak s = some r ∧
        |r - ((rs.map List.length).sum : ℕ) / (rs.length : ℕ)|
          ≤ ((rs.map List.length).sum : ℕ) / (rs.length : ℕ) / 2 ^ 53) ∧
    (s.history = [] → calculateAverageStreak s = some 0) ∧
    calculateAverageStreak scenarioStats = some 2 := by
  refine ⟨⟨_, isMaximalRuns_maximalRuns s.history⟩, ?_, ?_, ?_⟩
  · intro rs hrs hne
    have heq := calculateAverageStreak_eq s hlen rs hrs hne
    refine ⟨heq, ?_⟩
    rw [heq]
    have hsum : (rs.map List.length).sum = s.history.length := by
      rw [← hrs.1, List.length_flatten]
    have hnil : rs ≠ [] := by
      intro hnil
      have hflat := hrs.1
      rw [hnil] at hflat
      exact hne hflat.symm
    have hpos : (0 : ℚ) < (rs.length : ℕ) := by
      have : 0 < rs.length := List.length_pos.mpr hnil
      exact_mod_cast this
    have hle : ((rs.length : ℕ) : ℚ) ≤ ((rs.map List.length).sum : ℕ) := by
      exact_mod_cast length_le_sum_lengths rs (fun r hr => (hrs.2.1 r hr).1)
    have hone : (1 : ℚ) ≤ ((rs.map List.length).sum : ℕ) / (rs.length : ℕ) := by
      rw [le_div_iff₀ hpos, one_mul]
      exact hle
    have hup : (((rs.map List.length).sum : ℕ) : ℚ) / (rs.length : ℕ) < 2 ^ 53 := by
      have h1 : (((rs.map List.length).sum : ℕ) : ℚ) < 2 ^ 53 := by
        rw [hsum]
        exact_mod_cast hlen
      have h2 : (1 : ℚ) ≤ (rs.length : ℕ) := by
        have : 1 ≤ rs.length := List.length_pos.mpr hnil
        exact_mod_cast this
      exact lt_of_le_of_lt (div_le_self (by positivity) h2) h1
    apply roundDouble_near_nonneg
    · right
      exact le_trans (by norm_num) hone
    · exact lt_trans hup (by norm_num)
  · intro hs
    simp [calculateAverageStreak, hs]
  · rw [calculateAverageStreak_eq scenarioStats (by simp [scenarioStats]) _ scenario_runs
      (by simp [scenarioStats])]
    have h2 : (((([[Outcome.Heads, Outcome.Heads, Outcome.Heads], [Outcome.Tails],
        [Outcome.Heads, Outcome.Heads]] : List (List Outcome)).map List.length).sum : ℕ) : ℚ)
        / ((([[Outcome.Heads, Outcome.Heads, Outcome.Heads], [Outcome.Tails],
        [Outcome.Heads, Outcome.Heads]] : List (List Outcome)).length : ℕ) : ℚ)
        = ((2 : ℕ) : ℚ) := by
      norm_num
    rw [h2, roundDouble_natCast 2 (by norm_num)]
    norm_num

/-- Witness for C3 (amended): the scenario H H H T H H. -/
theorem calculateAverageStreak_rounded_mean_witness :
    (∃ rs, IsMaximalRuns rs scenarioStats.history) ∧
    (∀ rs, IsMaximalRuns rs scenarioStats.history → scenarioStats.history ≠ [] →
      calculateAverageStreak scenarioStats
        = roundDouble (((rs.map List.length).sum : ℕ) / (rs.length : ℕ)) ∧
      ∃ r, calculateAverageStreak scenarioStats = some r ∧
        |r - ((rs.map List.length).sum : ℕ) / (rs.length : ℕ)|
          ≤ ((rs.map List.length).sum : ℕ) / (rs.length : ℕ) / 2 ^ 53) ∧
    (scenarioStats.history = [] → calculateAverageStreak scenarioStats = some 0) ∧
    calculateAverageStreak scenarioStats = some 2 :=
  calculateAverageStreak_rounded_mean scenarioStats (by simp [scenarioStats])

theorem roundDouble_half (t : ℕ) (hlt : t < 2 ^ 26) :
    roundDouble ((t : ℚ) / 2) = some ((t : ℚ) / 2) := by
  have hj : |(t : ℤ)| < 2 ^ 53 := by
    rw [abs_of_nonneg (Int.natCast_nonneg t)]
    have : (t : ℤ) < 2 ^ 26 := by exact_mod_cast hlt
    exact lt_trans this (by norm_num)
  have := roundDouble_dyadic (t : ℤ) 1 hj (by norm_num)
  simpa using this

theorem abs_two_mul_sub_le (h t : ℕ) (hle : h ≤ t) : |2 * (h : ℤ) - t| ≤ t := by
  rw [abs_le]
  constructor <;> omega

theorem roundDouble_half_diff (h t : ℕ) (hle : h ≤ t) (hlt : t < 2 ^ 26) :
    roundDouble ((h : ℚ) - (t : ℚ) / 2) = some ((h : ℚ) - (t : ℚ) / 2) := by
  have hj : |2 * (h : ℤ) - t| < 2 ^ 53 := by
    have h1 := abs_two_mul_sub_le h t hle
    have h2 : (t : ℤ) < 2 ^ 26 := by exact_mod_cast hlt
    exact lt_of_le_of_lt h1 (lt_trans h2 (by norm_num))
  have := roundDouble_dyadic (2 * (h : ℤ) - t) 1 hj (by norm_num)
  have heq : (((2 * (h : ℤ) - t : ℤ)) : ℚ) / 2 ^ 1 = (h : ℚ) - (t : ℚ) / 2 := by
    push_cast
    ring
  rwa [heq] at this

theorem roundDouble_half_diff_sq (h t : ℕ) (hle : h ≤ t) (hlt : t < 2 ^ 26) :
    roundDouble (((h : ℚ) - (t : ℚ) / 2) ^ 2) = some (((h : ℚ) - (t : ℚ) / 2) ^ 2) := by
  have h1 := abs_two_mul_sub_le h t hle
  have h2 : (t : ℤ) < 2 ^ 26 := by exact_mod_cast hlt
  have hj : |(2 * (h : ℤ) - t) ^ 2| < 2 ^ 53 := by
    rw [abs_pow]
    have h3 : |2 * (h : ℤ) - t| < 2 ^ 26 := lt_of_le_of_lt h1 h2
    have h4 : |2 * (h : ℤ) - t| ^ 2 < (2 ^ 26) ^ 2 :=
      pow_lt_pow_left₀ h3 (abs_nonneg _) (by norm_num)
    exact lt_trans h4 (by norm_num)
  have := roundDouble_dyadic ((2 * (h : ℤ) - t) ^ 2) 2 hj (by norm_num)
  have heq : ((((2 * (h : ℤ) - t) ^ 2 : ℤ)) : ℚ) / 2 ^ 2 = ((h : ℚ) - (t : ℚ) / 2) ^ 2 := by
    push_cast
    ring
  rwa [heq] at this

/-- The closed form of `calculateChiSquared` where the differences and squares are exact: only
the two quotients and their sum are rounded. -/
theorem calculateChiSquared_eq (s : TossStats) (hne : s.total ≠ 0) (hh : s.heads ≤ s.total)
    (ht : s.tails ≤ s.total) (hlt : s.total < 2 ^ 26) :
    calculateChiSquared s =
      (roundDouble (((s.heads : ℚ) - (s.total : ℚ) / 2) ^ 2 / ((s.total : ℚ) / 2))).bind
        (fun headsTerm =>
          (roundDouble (((s.tails : ℚ) - (s.total : ℚ) / 2) ^ 2 / ((s.total : ℚ) / 2))).bind
            (fun tailsTerm => roundDouble (headsTerm + tailsTerm))) := by
  have he : ((s.total : ℚ) / 2) ≠ 0 := by
    have : (s.total : ℚ) ≠ 0 := by exact_mod_cast hne
    positivity
  unfold calculateChiSquared
  rw [if_neg hne]
  unfold divDouble subDouble powDouble addDouble
  rw [if_neg (by norm_num : (2 : ℚ) ≠ 0), roundDouble_half s.total hlt]
  simp only [Option.bind_eq_bind, Option.some_bind]
  rw [roundDouble_half_diff s.heads s.total hh hlt]
  simp only [Option.some_bind]
  rw [roundDouble_half_diff_sq s.heads s.total hh hlt]
  simp only [Option.some_bind]
  rw [if_neg he, roundDouble_half_diff s.tails s.total ht hlt]
  simp only [Option.some_bind]
  rw [roundDouble_half_diff_sq s.tails s.total ht hlt]
  simp only [Option.some_bind, if_neg he]

/-- Two rounded non-negative numbers and their rounded sum stay within relative error `2^-51`
of the exact sum. -/
theorem rounded_sum_near (x y : ℚ) (hx0 : x = 0 ∨ (1 : ℚ) / 2 ^ 100 ≤ x)
    (hy0 : y = 0 ∨ (1 : ℚ) / 2 ^ 100 ≤ y) (hx1 : x < 2 ^ 100) (hy1 : y < 2 ^ 100) :
    ∃ r, (roundDouble x).bind (fun a => (roundDouble y).bind (fun b => roundDouble (a + b)))
        = some r ∧ |r - (x + y)| ≤ (x + y) / 2 ^ 51 := by
  have hsmall : (2 : ℚ) ^ (-1022 : ℤ) ≤ 1 / 2 ^ 101 := by
    rw [show (1 : ℚ) / 2 ^ 101 = 2 ^ (-101 : ℤ) by norm_num]
    exact zpow_le_zpow_right₀ (by norm_num) (by norm_num)
  have hbig : (2 : ℚ) ^ 102 ≤ 2 ^ (1023 : ℤ) := by
    rw [show (2 : ℚ) ^ 102 = 2 ^ (102 : ℤ) by norm_num]
    exact zpow_le_zpow_right₀ (by norm_num) (by norm_num)
  have hxn : 0 ≤ x := by
    rcases hx0 with h | h
    · exact h.ge
    · exact le_trans (by positivity) h
  have hyn : 0 ≤ y := by
    rcases hy0 with h | h
    · exact h.ge
    · exact le_trans (by positivity) h
  have hnorm : ∀ z : ℚ, (z = 0 ∨ (1 : ℚ) / 2 ^ 100 ≤ z) → z < 2 ^ 100 →
      ∃ r, roundDouble z = some r ∧ |r - z| ≤ z / 2 ^ 53 := by
    intro z hz0 hz1
    apply roundDouble_near_nonneg
    · rcases hz0 with h | h
      · exact Or.inl h
      · right
        refine le_trans hsmall (le_trans ?_ h)
        apply div_le_div_of_nonneg_left (by norm_num) (by positivity)
        norm_num
    · exact lt_of_lt_of_le hz1 (le_trans (by norm_num) hbig)
  obtain ⟨a, ha, hae⟩ := hnorm x hx0 hx1
  obtain ⟨b, hb, hbe⟩ := hnorm y hy0 hy1
  rw [abs_le] at hae hbe
  have hu : (0 : ℚ) < 2 ^ 53 := by positivity
  have hxu : x / 2 ^ 53 ≤ x / 2 := div_le_div_of_nonneg_left hxn (by norm_num) (by norm_num)
  have hyu : y / 2 ^ 53 ≤ y / 2 := div_le_div_of_nonneg_left hyn (by norm_num) (by norm_num)
  have hs0 : a + b = 0 ∨ (2 : ℚ) ^ (-1022 : ℤ) ≤ a + b := by
    by_cases hz : x = 0 ∧ y = 0
    · left
      obtain ⟨hx, hy⟩ := hz
      subst hx
      subst hy
      simp only [zero_div, neg_zero, sub_zero] at hae hbe
      linarith [hae.1, hae.2, hbe.1, hbe.2]
    · right
      have hxy : (1 : ℚ) / 2 ^ 100 ≤ x + y := by
        rcases hx0 with h | h
        · rcases hy0 with h2 | h2
          · exact absurd ⟨h, h2⟩ hz
          · linarith
        · linarith
      have h101 : (1 : ℚ) / 2 ^ 101 = 1 / 2 ^ 100 / 2 := by norm_num
      refine le_trans hsmall ?_
      rw [h101]
      linarith [hae.1, hbe.1]
  have hs1 : a + b < (2 : ℚ) ^ (1023 : ℤ) := by
    have : a + b ≤ 2 * (x + y) := by linarith [hae.2, hbe.2]
    have h102 : (2 : ℚ) ^ 102 = 2 * (2 ^ 100 + 2 ^ 100) := by norm_num
    refine lt_of_lt_of_le ?_ hbig
    rw [h102]
    linarith
  obtain ⟨r, hr, hre⟩ := roundDouble_near_nonneg (a + b) hs0 hs1
  refine ⟨r, ?_, ?_⟩
  · rw [ha, hb]
    simpa using hr
  · rw [abs_le] at hre ⊢
    have h51 : (x + y) / 2 ^ 51 = 4 * ((x + y) / 2 ^ 53) := by
      field_simp
      ring
    have hsum : (a + b) / 2 ^ 53 ≤ 2 * ((x + y) / 2 ^ 53) := by
      rw [div_le_iff₀ hu]
      have : 2 * ((x + y) / 2 ^ 53) * 2 ^ 53 = 2 * (x + y) := by field_simp
      rw [this]
      linarith [hae.2, hbe.2]
    have hq : 0 ≤ (x + y) / 2 ^ 53 := div_nonneg (add_nonneg hxn hyn) hu.le
    have hadd : (x + y) / 2 ^ 53 = x / 2 ^ 53 + y / 2 ^ 53 := add_div x y _
    constructor
    · rw [h51]
      linarith [hre.1, hae.1, hbe.1]
    · rw [h51]
      linarith [hre.2, hae.2, hbe.2]

theorem chiTerm_bounds (h t : ℕ) (hle : h ≤ t) (ht0 : t ≠ 0) (hlt : t < 2 ^ 26) :
    (((h : ℚ) - (t : ℚ) / 2) ^ 2 / ((t : ℚ) / 2) = 0 ∨
      (1 : ℚ) / 2 ^ 100 ≤ ((h : ℚ) - (t : ℚ) / 2) ^ 2 / ((t : ℚ) / 2)) ∧
    ((h : ℚ) - (t : ℚ) / 2) ^ 2 / ((t : ℚ) / 2) < 2 ^ 100 := by
  have htq : (0 : ℚ) < (t : ℚ) := by
    have : 0 < t := Nat.pos_of_ne_zero ht0
    exact_mod_cast this
  have htlt : (t : ℚ) < 2 ^ 26 := by exact_mod_cast hlt
  have hform : ((h : ℚ) - (t : ℚ) / 2) ^ 2 / ((t : ℚ) / 2)
      = (((2 * (h : ℤ) - t) ^ 2 : ℤ) : ℚ) / (2 * t) := by
    push_cast
    field_simp
    ring
  have habs := abs_two_mul_sub_le h t hle
  have hsq : (2 * (h : ℤ) - t) ^ 2 ≤ (t : ℤ) ^ 2 := by
    rw [← sq_abs (2 * (h : ℤ) - t)]
    exact pow_le_pow_left₀ (abs_nonneg _) habs 2
  have hsqq : (((2 * (h : ℤ) - t) ^ 2 : ℤ) : ℚ) ≤ (t : ℚ) ^ 2 := by exact_mod_cast hsq
  rw [hform]
  constructor
  · by_cases hj : 2 * (h : ℤ) - t = 0
    · left
      rw [hj]
      simp
    · right
      have h1 : (1 : ℤ) ≤ (2 * (h : ℤ) - t) ^ 2 := by
        have := sq_nonneg (2 * (h : ℤ) - t)
        have hne : (2 * (h : ℤ) - t) ^ 2 ≠ 0 := pow_ne_zero 2 hj
        omega
      have h1q : (1 : ℚ) ≤ (((2 * (h : ℤ) - t) ^ 2 : ℤ) : ℚ) := by exact_mod_cast h1
      rw [div_le_div_iff₀ (by positivity) (by positivity)]
      have : (2 : ℚ) * t ≤ 2 ^ 100 := by
        have : (2 : ℚ) * t ≤ 2 * 2 ^ 26 := by linarith
        exact le_trans this (by norm_num)
      nlinarith
  · rw [div_lt_iff₀ (by positivity)]
    have : (t : ℚ) ^ 2 < 2 ^ 100 * (2 * t) := by
      have h2 : (t : ℚ) ≤ 2 ^ 100 * 2 := le_trans htlt.le (by norm_num)
      nlinarith
    linarith

/-- A power of two is a double up to `2^1023`; from `2^1024` on it overflows. -/
theorem roundDouble_two_zpow (k : ℤ) (hk : -1022 ≤ k) :
    roundDouble ((2 : ℚ) ^ k) = if k < 1024 then some ((2 : ℚ) ^ k) else none := by
  have hpos : (0 : ℚ) < 2 ^ k := by positivity
  have hval : ((2 ^ 52 : ℤ) : ℚ) * (2 : ℚ) ^ (k - 52) = 2 ^ k := by
    rw [zpow_sub₀ (by norm_num)]
    push_cast
    field_simp
    ring
  have h := roundDouble_eq_of_nearest ((2 : ℚ) ^ k) k (2 ^ 52)
    (by rw [abs_of_pos hpos])
    (by
      rw [abs_of_pos hpos]
      exact zpow_lt_zpow_right₀ (by norm_num) (by omega))
    hk
    (by
      have hq : (2 : ℚ) ^ k / (2 : ℚ) ^ (k - 52) = ((2 ^ 52 : ℤ) : ℚ) := by
        rw [zpow_sub₀ (by norm_num)]
        push_cast
        field_simp
        norm_num
      rw [hq, sub_self, abs_zero]
      norm_num)
  rw [h, hval, abs_of_pos hpos]
  by_cases hlt : k < 1024
  · rw [if_pos hlt, if_pos]
    rw [show (2 : ℚ) ^ (1024 : ℕ) = 2 ^ (1024 : ℤ) by norm_num]
    exact zpow_lt_zpow_right₀ (by norm_num) hlt
  · rw [if_neg hlt, if_neg]
    rw [show (2 : ℚ) ^ (1024 : ℕ) = 2 ^ (1024 : ℤ) by norm_num, not_lt]
    exact zpow_le_zpow_right₀ (by norm_num) (by omega)

theorem calculateChiSquared_of_square_overflow (s : TossStats) (e d : ℚ) (hne : s.total ≠ 0)
    (he : roundDouble ((s.total : ℚ) / 2) = some e)
    (hd : roundDouble ((s.heads : ℚ) - e) = some d) (hsq : roundDouble (d ^ 2) = none) :
    calculateChiSquared s = none := by
  unfold calculateChiSquared
  rw [if_neg hne]
  unfold divDouble subDouble powDouble
  rw [if_neg (by norm_num : (2 : ℚ) ≠ 0), he]
  simp only [Option.bind_eq_bind, Option.some_bind]
  rw [hd]
  simp only [Option.some_bind]
  rw [hsq]
  rfl

theorem calculateChiSquared_huge : calculateChiSquared hugeStats = none := by
  have h599 : roundDouble ((2 : ℚ) ^ (599 : ℤ)) = some ((2 : ℚ) ^ (599 : ℤ)) := by
    rw [roundDouble_two_zpow 599 (by norm_num), if_pos (by norm_num)]
  have h1198 : roundDouble ((2 : ℚ) ^ (1198 : ℤ)) = none := by
    rw [roundDouble_two_zpow 1198 (by norm_num), if_neg (by norm_num)]
  have hhalf : ((2 ^ 600 : ℕ) : ℚ) / 2 = (2 : ℚ) ^ (599 : ℤ) := by
    rw [show (599 : ℤ) = 600 - 1 by norm_num, zpow_sub₀ (by norm_num)]
    norm_num
  have hdiff : ((2 ^ 600 : ℕ) : ℚ) - (2 : ℚ) ^ (599 : ℤ) = (2 : ℚ) ^ (599 : ℤ) := by
    rw [← hhalf]
    ring
  have hsq : ((2 : ℚ) ^ (599 : ℤ)) ^ 2 = (2 : ℚ) ^ (1198 : ℤ) := by
    rw [← zpow_natCast, ← zpow_mul]
    norm_num
  have ht : hugeStats.total = 2 ^ 600 := rfl
  have hh : hugeStats.heads = 2 ^ 600 := rfl
  apply calculateChiSquared_of_square_overflow hugeStats ((2 : ℚ) ^ (599 : ℤ))
    ((2 : ℚ) ^ (599 : ℤ))
  · rw [ht]
    positivity
  · rw [ht, hhalf]
    exact h599
  · rw [hh, hdiff]
    exact h599
  · rw [hsq]
    exact h1198

/-- C5, as stated, fails: at total 6, heads 5, tails 1 the exact value of the formula is 8/3,
and `calculateChiSquared` returns twice the double nearest to 4/3, that is
2.6666666666666665; the two are different rationals. -/
theorem calculateChiSquared_rounds :
    calculateChiSquared scenarioStats = some (2 * fourThirdsDouble) ∧
    2 * fourThirdsDouble ≠
      ((5 : ℚ) - 6 / 2) ^ 2 / (6 / 2) + ((1 : ℚ) - 6 / 2) ^ 2 / (6 / 2) := by
  constructor
  · rw [calculateChiSquared_eq scenarioStats (by decide) (by decide) (by decide)
      (by simp [scenarioStats])]
    have hx : ((scenarioStats.heads : ℚ) - (scenarioStats.total : ℚ) / 2) ^ 2
        / ((scenarioStats.total : ℚ) / 2) = 4 / 3 := by
      simp only [scenarioStats]
      norm_num
    have hy : ((scenarioStats.tails : ℚ) - (scenarioStats.total : ℚ) / 2) ^ 2
        / ((scenarioStats.total : ℚ) / 2) = 4 / 3 := by
      simp only [scenarioStats]
      norm_num
    rw [hx, hy, roundDouble_four_thirds]
    simp only [Option.some_bind]
    have hd := roundDouble_dyadic 6004799503160661 51 (by norm_num) (by norm_num)
    have heq : fourThirdsDouble + fourThirdsDouble
        = ((6004799503160661 : ℤ) : ℚ) / 2 ^ 51 := by
      unfold fourThirdsDouble
      norm_num
    rw [heq, hd]
    congr 1
    unfold fourThirdsDouble
    norm_num
  · unfold fourThirdsDouble
    norm_num

/-- C5 (amended): `calculateChiSquared` returns 0 when `total = 0`, and its value depends only
on `total`, `heads` and `tails`, whatever the `edge` counter and the history are. For
`total ≠ 0` it evaluates `(heads - total/2)^2/(total/2) + (tails - total/2)^2/(total/2)` in
double arithmetic: with `heads ≤ total`, `tails ≤ total` and `total < 2^26` the differences and
squares are exact, each of the two quotients is rounded to the nearest double and so is their
sum, and the result is a finite number within relative error `2^-51` of the exact rational
value. It equals the exact value when nothing rounds (1 at total 4, heads 3, tails 1), and it
is `Infinity` when a square overflows (total = heads = 2^600). -/
theorem calculateChiSquared_double (s : TossStats) :
    (s.total = 0 → calculateChiSquared s = some 0) ∧
    (∀ s2 : TossStats, s2.total = s.total → s2.heads = s.heads → s2.tails = s.tails →
      calculateChiSquared s2 = calculateChiSquared s) ∧
    (s.total ≠ 0 → s.heads ≤ s.total → s.tails ≤ s.total → s.total < 2 ^ 26 →
      calculateChiSquared s =
        (roundDouble (((s.heads : ℚ) - (s.total : ℚ) / 2) ^ 2 / ((s.total : ℚ) / 2))).bind
          (fun headsTerm =>
            (roundDouble (((s.tails : ℚ) - (s.total : ℚ) / 2) ^ 2 / ((s.total : ℚ) / 2))).bind
              (fun tailsTerm => roundDouble (headsTerm + tailsTerm))) ∧
      ∃ r, calculateChiSquared s = some r ∧
        |r - (((s.heads : ℚ) - (s.total : ℚ) / 2) ^ 2 / ((s.total : ℚ) / 2) +
              ((s.tails : ℚ) - (s.total : ℚ) / 2) ^ 2 / ((s.total : ℚ) / 2))|
          ≤ (((s.heads : ℚ) - (s.total : ℚ) / 2) ^ 2 / ((s.total : ℚ) / 2) +
              ((s.tails : ℚ) - (s.total : ℚ) / 2) ^ 2 / ((s.total : ℚ) / 2)) / 2 ^ 51) ∧
    calculateChiSquared threeToOneStats = some 1 ∧
    calculateChiSquared hugeStats = none := by
  refine ⟨?_, ?_, ?_, ?_, calculateChiSquared_huge⟩
  · intro h0
    simp [calculateChiSquared, h0]
  · intro s2 ht hh hl
    simp [calculateChiSquared, ht, hh, hl]
  · intro hne hh ht hlt
    have heq := calculateChiSquared_eq s hne hh ht hlt
    refine ⟨heq, ?_⟩
    rw [heq]
    obtain ⟨hx0, hx1⟩ := chiTerm_bounds s.heads s.total hh hne hlt
    obtain ⟨hy0, hy1⟩ := chiTerm_bounds s.tails s.total ht hne hlt
    exact rounded_sum_near _ _ hx0 hy0 hx1 hy1
  · rw [calculateChiSquared_eq threeToOneStats (by decide) (by decide) (by decide)
      (by simp [threeToOneStats])]
    have hx : ((threeToOneStats.heads : ℚ) - (threeToOneStats.total : ℚ) / 2) ^ 2
        / ((threeToOneStats.total : ℚ) / 2) = ((1 : ℤ) : ℚ) / 2 ^ 1 := by
      simp only [threeToOneStats]
      norm_num
    have hy : ((threeToOneStats.tails : ℚ) - (threeToOneStats.total : ℚ) / 2) ^ 2
        / ((threeToOneStats.total : ℚ) / 2) = ((1 : ℤ) : ℚ) / 2 ^ 1 := by
      simp only [threeToOneStats]
      norm_num
    rw [hx, hy, roundDouble_dyadic 1 1 (by norm_num) (by norm_num)]
    simp only [Option.some_bind]
    have h1 : ((1 : ℤ) : ℚ) / 2 ^ 1 + ((1 : ℤ) : ℚ) / 2 ^ 1 = ((1 : ℕ) : ℚ) := by norm_num
    rw [h1, roundDouble_natCast 1 (by norm_num)]
    norm_num


theorem ownProp_replaceProp_self (props : Props) (key : String) (w : JSVal)
    (h : (ownProp props key).isSome = true) : ownProp (replaceProp props key w) key = some w := by
  induction props with
  | nil => simp [ownProp] at h
  | cons kv rest ih =>
    obtain ⟨k, v⟩ := kv
    by_cases hk : k = key
    · simp [replaceProp, ownProp, hk]
    · simp only [ownProp, hk, if_false] at h
      simp [replaceProp, ownProp, hk, ih h]

theorem ownProp_replaceProp_ne (props : Props) (key k2 : String) (w : JSVal) (hne : k2 ≠ key) :
    ownProp (replaceProp props key w) k2 = ownProp props k2 := by
  induction props with
  | nil => simp [replaceProp]
  | cons kv rest ih =>
    obtain ⟨k, v⟩ := kv
    by_cases hk : k = key
    · subst hk
      have : ¬ k = k2 := fun h => hne h.symm
      simp [replaceProp, ownProp, this]
    · simp [replaceProp, ownProp, hk, ih]

theorem ownProp_append (a b : Props) (key : String) :
    ownProp (a ++ b) key = (ownProp a key).orElse (fun _ => ownProp b key) := by
  induction a with
  | nil => simp [ownProp]
  | cons kv rest ih =>
    obtain ⟨k, v⟩ := kv
    by_cases hk : k = key
    · simp [ownProp, hk]
    · simp [ownProp, hk, ih]

theorem getProp_assignTrue_self (props : Props) (key : String)
    (h : (getProp props key).truthy = false) :
    getProp (assignTrue props key) key = .bool true := by
  unfold assignTrue
  cases hown : ownProp props key with
  | some v =>
    simp only [Option.isSome_some, if_true]
    simp [getProp, ownProp_replaceProp_self props key _ (by simp [hown])]
  | none =>
    have hnp : key ∉ objectPrototypeKeys := by
      intro hmem
      simp [getProp, hown, hmem, JSVal.truthy] at h
    have hne : key ≠ "__proto__" := by
      intro heq
      apply hnp
      rw [heq]
      decide
    simp [hne, getProp, ownProp_append, hown, ownProp]

theorem ownProp_assignTrue_ne (props : Props) (key k2 : String) (hne : k2 ≠ key) :
    ownProp (assignTrue props key) k2 = ownProp props k2 := by
  unfold assignTrue
  split_ifs with h1 h2
  · exact ownProp_replaceProp_ne props key k2 _ hne
  · rfl
  · have : ¬ key = k2 := fun h => hne h.symm
    rw [ownProp_append]
    cases ownProp props k2 <;> simp [ownProp, this]

theorem ownProp_assignTrue_of_truthy (props : Props) (id key : String) (v : JSVal)
    (hlocked : (getProp props id).truthy = false)
    (hown : ownProp props key = some v) (hv : v.truthy = true) :
    ownProp (assignTrue props id) key = some v := by
  have hne : key ≠ id := by
    intro heq
    subst heq
    simp [getProp, hown, hv] at hlocked
  rw [ownProp_assignTrue_ne props id key hne, hown]

theorem readField_falsy_of_not_hasField (data : JSVal) (key : String)
    (hproto : key ∉ objectPrototypeKeys) (h : hasField data key = false) :
    readField data key = .error .typeError ∨
      ∃ v, readField data key = .ok v ∧ v.truthy = false := by
  cases data with
  | null => exact Or.inl rfl
  | undefined => exact Or.inl rfl
  | obj props =>
    right
    have hown : ownProp props key = none := by
      simpa [hasField] using h
    exact ⟨_, rfl, by simp [getProp, hown, hproto, JSVal.truthy]⟩
  | bool b => exact Or.inr ⟨_, rfl, rfl⟩
  | num q => exact Or.inr ⟨_, rfl, rfl⟩
  | str s => exact Or.inr ⟨_, rfl, rfl⟩
  | arr items => exact Or.inr ⟨_, rfl, rfl⟩
  | builtin name => exact Or.inr ⟨_, rfl, rfl⟩

theorem importAttempt_fails (host : Host) (text : String) (st : AppState)
    (h : host.parse text = none ∨ ∃ data, host.parse text = some data ∧
      (hasField data "stats" = false ∨ hasField data "achievements" = false)) :
    ∃ e, importAttempt host text st = .error e := by
  unfold importAttempt
  rcases h with hnone | ⟨data, hsome, hmiss⟩
  · rw [hnone]
    exact ⟨_, rfl⟩
  · rw [hsome]
    simp only
    rcases hrs : readField data "stats" with e | stats
    · exact ⟨_, rfl⟩
    · by_cases hst : stats.truthy = true
      · rcases hmiss with hs | ha
        · rcases readField_falsy_of_not_hasField data "stats" (by decide) hs with
            he | ⟨v, hv, hf⟩
          · rw [he] at hrs
            cases hrs
          · rw [hv] at hrs
            cases hrs
            rw [hf] at hst
            cases hst
        · rcases readField_falsy_of_not_hasField data "achievements" (by decide) ha with
            he | ⟨v, hv, hf⟩
          · refine ⟨.typeError, ?_⟩
            simp [bind, Except.bind, hst, he]
          · refine ⟨.invalidFormat, ?_⟩
            simp [bind, Except.bind, hst, hv, hf, pure, Except.pure]
      · refine ⟨.invalidFormat, ?_⟩
        simp only [Bool.not_eq_true] at hst
        simp [bind, Except.bind, hst, pure, Except.pure]

/-- C6: when the import text fails to parse, or parses to a document without a `stats` field or
without an `achievements` field, `importData` leaves `this.stats`, `this.achievements` and the
whole of `localStorage` (so both persisted keys) as they were, and its only effect is the error
notification: nothing is written and the page is not reloaded. -/
theorem importData_failure_leaves_state (host : Host) (text : String) (st : AppState)
    (h : host.parse text = none ∨ ∃ data, host.parse text = some data ∧
      (hasField data "stats" = false ∨ hasField data "achievements" = false)) :
    (importData host text st).stats = st.stats ∧
    (importData host text st).achievements = st.achievements ∧
    (importData host text st).storage = st.storage ∧
    (importData host text st).log =
      st.log ++ [Effect.notification "数据导入失败：文件格式错误" "error"] := by
  obtain ⟨e, he⟩ := importAttempt_fails host text st h
  unfold importData
  rw [he]
  exact ⟨rfl, rfl, rfl, rfl⟩

/-- Witness for C6: importing a document without an `achievements` field into a session whose
`first-toss` achievement is unlocked and persisted. -/
theorem importData_failure_leaves_state_witness :
    (importData sampleHost statsOnlyDocument veteranState).stats = veteranState.stats ∧
    (importData sampleHost statsOnlyDocument veteranState).achievements
      = veteranState.achievements ∧
    (importData sampleHost statsOnlyDocument veteranState).storage = veteranState.storage ∧
    (importData sampleHost statsOnlyDocument veteranState).log =
      veteranState.log ++ [Effect.notification "数据导入失败：文件格式错误" "error"] :=
  importData_failure_leaves_state sampleHost statsOnlyDocument veteranState
    (Or.inr ⟨_, rfl, Or.inr rfl⟩)

theorem unlockAchievement_unlocked (host : Host) (id : String) (notify : Bool) (st : AppState)
    (props : Props) (hacc : st.achievements = .obj props)
    (h : (getProp props id).truthy = true) :
    unlockAchievement host id notify st = some st := by
  unfold unlockAchievement
  rw [hacc]
  simp [h]

theorem unlockAchievement_locked (host : Host) (id : String) (notify : Bool) (st : AppState)
    (props : Props) (hacc : st.achievements = .obj props)
    (h : (getProp props id).truthy = false) :
    ∃ st1, unlockAchievement host id notify st = some st1 ∧
      st1.stats = st.stats ∧
      st1.achievements = .obj (assignTrue props id) ∧
      st1.storage = (fun k => if k = "achievements"
        then some (host.stringify (.obj (assignTrue props id))) else st.storage k) ∧
      st1.log = st.log ++ [Effect.setItem "achievements" (host.stringify (.obj (assignTrue props id)))]
        ++ (if host.hasElement ("achievement-" ++ id)
            then [Effect.addUnlockedClass ("achievement-" ++ id)] else [])
        ++ (if notify = true ∧ (getProp notificationTable id).truthy = true
            then [Effect.achievementNotification id] else [])
        ++ [Effect.dispatch "achievementUnlocked" id] := by
  unfold unlockAchievement
  rw [hacc]
  simp only [h, Bool.false_eq_true, if_false]
  refine ⟨_, rfl, ?_⟩
  cases host.hasElement ("achievement-" ++ id) <;> cases notify <;>
    cases hn : (getProp notificationTable id).truthy <;>
    simp [dispatchEvent, emit, showAchievementNotification, saveAchievements, setItem, hn]

theorem importData_success (host : Host) (text : String) (st : AppState)
    (data stats achievements : JSVal) (hp : host.parse text = some data)
    (hs : readField data "stats" = .ok stats) (hst : stats.truthy = true)
    (ha : readField data "achievements" = .ok achievements)
    (hat : achievements.truthy = true) :
    (importData host text st).stats = stats ∧
    (importData host text st).achievements = achievements ∧
    (importData host text st).storage "tossStats" = some (host.stringify stats) ∧
    (importData host text st).storage "achievements" = some (host.stringify achievements) ∧
    (importData host text st).log = st.log ++
      [Effect.setItem "tossStats" (host.stringify stats),
       Effect.setItem "achievements" (host.stringify achievements),
       Effect.notification "数据导入成功！" "success", Effect.reload] := by
  unfold importData importAttempt
  rw [hp]
  simp [bind, Except.bind, pure, Except.pure, hs, hst, ha, hat, showNotification, emit,
    saveStats, saveAchievements, setItem]

theorem importData_rejected (host : Host) (text : String) (st : AppState)
    (h : ¬ ∃ data stats achievements, host.parse text = some data ∧
      readField data "stats" = .ok stats ∧ stats.truthy = true ∧
      readField data "achievements" = .ok achievements ∧ achievements.truthy = true) :
    importData host text st = showNotification "数据导入失败：文件格式错误" "error" st := by
  unfold importData importAttempt
  rcases hp : host.parse text with _ | data
  · rfl
  · simp only
    rcases hrs : readField data "stats" with e | stats
    · rfl
    · by_cases hst : stats.truthy = true
      · rcases hra : readField data "achievements" with e | achievements
        · simp [bind, Except.bind, hst, hra]
        · by_cases hat : achievements.truthy = true
          · exact absurd ⟨data, stats, achievements, hp, hrs, hst, hra, hat⟩ h
          · simp only [Bool.not_eq_true] at hat
            simp [bind, Except.bind, pure, Except.pure, hst, hra, hat]
      · simp only [Bool.not_eq_true] at hst
        simp [bind, Except.bind, pure, Except.pure, hst]

/-- C7, as stated, fails for `importData`: in a session where `first-toss` is unlocked, importing
a well-formed export whose achievements record `first-toss` as `false` leaves the flag false;
the achievement set was replaced by an operation other than unlock. -/
theorem importData_reverts_flag :
    (getProp firstTossUnlocked "first-toss").truthy = true ∧
    veteranState.achievements = .obj firstTossUnlocked ∧
    (importData sampleHost revertingDocument veteranState).achievements
      = .obj [("first-toss", .bool false)] ∧
    (getProp [("first-toss", .bool false)] "first-toss").truthy = false := by
  refine ⟨by decide, rfl, rfl, by decide⟩

/-- C7 (amended): `unlockAchievement` is monotone on an achievement object: every own flag that
is truthy before the call has the same value after it, and the unlocked id is truthy after it.
`importData` is not monotone: whenever the text parses to a document whose `stats` and
`achievements` fields are both truthy, the achievement set after the call is the document's
`achievements` field, whatever the set was before, and the new set is written to storage and
the page reloads; for every other text the achievement set is unchanged. -/
theorem achievements_unlock_monotone_import_replaces (host : Host) (st : AppState) :
    (∀ (id : String) (notify : Bool) (props : Props),
      ∃ st1 props1, unlockAchievement host id notify { st with achievements := .obj props } = some st1 ∧
        st1.achievements = .obj props1 ∧
        (∀ key v, ownProp props key = some v → v.truthy = true → ownProp props1 key = some v) ∧
        (getProp props1 id).truthy = true) ∧
    (∀ text : String,
      (importData host text st).achievements = st.achievements ∨
      ∃ data stats achievements, host.parse text = some data ∧
        readField data "stats" = .ok stats ∧ stats.truthy = true ∧
        readField data "achievements" = .ok achievements ∧ achievements.truthy = true ∧
        (importData host text st).achievements = achievements) ∧
    (∀ (text : String) (data stats achievements : JSVal), host.parse text = some data →
      readField data "stats" = .ok stats → stats.truthy = true →
      readField data "achievements" = .ok achievements → achievements.truthy = true →
      (importData host text st).achievements = achievements ∧
      (importData host text st).storage "achievements" = some (host.stringify achievements) ∧
      Effect.reload ∈ (importData host text st).log) ∧
    (∀ text : String,
      (¬ ∃ data stats achievements, host.parse text = some data ∧
        readField data "stats" = .ok stats ∧ stats.truthy = true ∧
        readField data "achievements" = .ok achievements ∧ achievements.truthy = true) →
      (importData host text st).achievements = st.achievements ∧
      (importData host text st).storage = st.storage) := by
  refine ⟨?_, ?_, ?_, ?_⟩
  rotate_left 2
  · intro text data stats achievements hp hs hst ha hat
    obtain ⟨_, h2, _, h4, h5⟩ := importData_success host text st data stats achievements hp hs hst ha hat
    refine ⟨h2, h4, ?_⟩
    rw [h5]
    simp
  · intro text hrej
    rw [importData_rejected host text st hrej]
    exact ⟨rfl, rfl⟩
  · intro id notify props
    by_cases h : (getProp props id).truthy = true
    · exact ⟨_, props, unlockAchievement_unlocked host id notify _ props rfl h, rfl,
        fun _ _ hown _ => hown, h⟩
    · simp only [Bool.not_eq_true] at h
      obtain ⟨st1, hst1, _, hach, _, _⟩ :=
        unlockAchievement_locked host id notify { st with achievements := .obj props } props rfl h
      refine ⟨st1, _, hst1, hach, ?_, ?_⟩
      · intro key v hown hv
        exact ownProp_assignTrue_of_truthy props id key v h hown hv
      · rw [getProp_assignTrue_self props id h]
        rfl
  · intro text
    unfold importData importAttempt
    rcases hp : host.parse text with _ | data
    · exact Or.inl rfl
    · simp only
      rcases hrs : readField data "stats" with e | stats
      · exact Or.inl rfl
      · by_cases hst : stats.truthy = true
        · rcases hra : readField data "achievements" with e | achievements
          · left
            simp [bind, Except.bind, hst, hra, showNotification, emit]
          · by_cases hat : achievements.truthy = true
            · right
              refine ⟨data, stats, achievements, rfl, hrs, hst, hra, hat, ?_⟩
              simp [bind, Except.bind, pure, Except.pure, hst, hra, hat, showNotification, emit,
                saveStats, saveAchievements, setItem]
            · left
              simp only [Bool.not_eq_true] at hat
              simp [bind, Except.bind, pure, Except.pure, hst, hra, hat, showNotification, emit]
        · left
          simp only [Bool.not_eq_true] at hst
          simp [bind, Except.bind, pure, Except.pure, hst, showNotification, emit]

/-- C8: on an achievement object `unlockAchievement` is idempotent per id: a second call after
the first returns the very state the first call produced (same achievement set, same storage,
no further effect: no write, no notification, no event), whatever its notification argument;
and a call on an id that is already unlocked changes nothing at all, so the notification can
only come from a locked-to-unlocked transition. -/
theorem unlockAchievement_idempotent (host : Host) (id : String) (notify1 notify2 : Bool)
    (st : AppState) (props : Props) :
    ∃ st1, unlockAchievement host id notify1 { st with achievements := .obj props } = some st1 ∧
      unlockAchievement host id notify2 st1 = some st1 ∧
      ((getProp props id).truthy = true → st1 = { st with achievements := .obj props }) ∧
      (st1.log ≠ st.log → (getProp props id).truthy = false) := by
  by_cases h : (getProp props id).truthy = true
  · refine ⟨_, unlockAchievement_unlocked host id notify1 _ props rfl h,
      unlockAchievement_unlocked host id notify2 _ props rfl h, fun _ => rfl, ?_⟩
    intro hlog
    exact absurd rfl hlog
  · simp only [Bool.not_eq_true] at h
    obtain ⟨st1, hst1, _, hach, _, _⟩ :=
      unlockAchievement_locked host id notify1 { st with achievements := .obj props } props rfl h
    refine ⟨st1, hst1, ?_, ?_, fun _ => h⟩
    · apply unlockAchievement_unlocked host id notify2 st1 _ hach
      rw [getProp_assignTrue_self props id h]
      rfl
    · intro ht
      rw [h] at ht
      cases ht

/-- C9, as stated, fails: `secret-level` is not a key of `defaultAchievements`, yet unlocking it
in a fresh session adds the key with flag `true`, writes the achievement set to `localStorage`
and dispatches `achievementUnlocked`. -/
theorem unlockAchievement_unknown_id_not_noop :
    "secret-level" ∉ defaultAchievements.map Prod.fst ∧
    ∃ st1 props1, unlockAchievement sampleHost "secret-level" true freshState = some st1 ∧
      st1.achievements = .obj props1 ∧
      (ownProp defaultAchievements "secret-level").isNone = true ∧
      (ownProp props1 "secret-level").isSome = true ∧
      freshState.storage "achievements" = none ∧
      (st1.storage "achievements").isSome = true ∧
      Effect.dispatch "achievementUnlocked" "secret-level" ∈ st1.log := by
  refine ⟨by decide, _, _, rfl, rfl, by decide, by decide, rfl, by decide, by decide⟩

/-- C9 (amended): for an id that is neither a key of `defaultAchievements` nor a member name of
`Object.prototype`, `unlockAchievement` on an achievement object shows no achievement
notification, whatever its notification argument. It is a no-op only when the id's flag is
already truthy; otherwise it sets the id's flag to `true` in the achievement set, writes the
set under the key `achievements` and dispatches `achievementUnlocked` for the id. -/
theorem unlockAchievement_unknown_id (host : Host) (id : String) (notify : Bool)
    (st : AppState) (props : Props)
    (hknown : id ∉ defaultAchievements.map Prod.fst) (hproto : id ∉ objectPrototypeKeys) :
    ∃ st1, unlockAchievement host id notify { st with achievements := .obj props } = some st1 ∧
      (∀ m, Effect.achievementNotification m ∈ st1.log →
        Effect.achievementNotification m ∈ st.log) ∧
      ((getProp props id).truthy = true → st1 = { st with achievements := .obj props }) ∧
      ((getProp props id).truthy = false →
        st1.achievements = .obj (assignTrue props id) ∧
        getProp (assignTrue props id) id = .bool true ∧
        st1.storage "achievements" = some (host.stringify (.obj (assignTrue props id))) ∧
        Effect.dispatch "achievementUnlocked" id ∈ st1.log) := by
  have htable : (getProp notificationTable id).truthy = false := by
    have hk : ∀ k ∈ defaultAchievements.map Prod.fst, ¬ k = id := by
      intro k hk heq
      exact hknown (heq ▸ hk)
    simp only [defaultAchievements, List.map_cons, List.map_nil, List.mem_cons,
      List.mem_singleton, forall_eq_or_imp, forall_eq, List.not_mem_nil, false_implies,
      imp_false, and_true] at hk
    obtain ⟨h1, h2, h3, h4, h5, h6, h7, h8⟩ := hk
    simp [getProp, notificationTable, ownProp, h1, h2, h3, h4, h5, h6, h7, h8, hproto,
      JSVal.truthy]
  by_cases h : (getProp props id).truthy = true
  · refine ⟨_, unlockAchievement_unlocked host id notify _ props rfl h, fun _ hm => hm,
      fun _ => rfl, ?_⟩
    intro hf
    rw [h] at hf
    cases hf
  · simp only [Bool.not_eq_true] at h
    obtain ⟨st1, hst1, _, hach, hsto, hlog⟩ :=
      unlockAchievement_locked host id notify { st with achievements := .obj props } props rfl h
    refine ⟨st1, hst1, ?_, ?_, fun _ => ⟨hach, getProp_assignTrue_self props id h, ?_, ?_⟩⟩
    · intro m hm
      rw [hlog] at hm
      simp only [htable, Bool.false_eq_true, and_false, if_false, List.append_nil,
        List.mem_append, List.mem_singleton] at hm
      rcases hm with ((hm | hm) | hm) | hm
      · exact hm
      · cases hm
      · split_ifs at hm
        · simp at hm
        · simp at hm
      · cases hm
    · intro ht
      rw [h] at ht
      cases ht
    · rw [hsto]
      simp
    · rw [hlog]
      simp

/-- Witness for C9 (amended): unlocking `secret-level` in a fresh session. -/
theorem unlockAchievement_unknown_id_witness :
    ∃ st1, unlockAchievement sampleHost "secret-level" true
        { freshState with achievements := .obj defaultAchievements } = some st1 ∧
      (∀ m, Effect.achievementNotification m ∈ st1.log →
        Effect.achievementNotification m ∈ freshState.log) ∧
      ((getProp defaultAchievements "secret-level").truthy = true →
        st1 = { freshState with achievements := .obj defaultAchievements }) ∧
      ((getProp defaultAchievements "secret-level").truthy = false →
        st1.achievements = .obj (assignTrue defaultAchievements "secret-level") ∧
        getProp (assignTrue defaultAchievements "secret-level") "secret-level" = .bool true ∧
        st1.storage "achievements"
          = some (sampleHost.stringify (.obj (assignTrue defaultAchievements "secret-level"))) ∧
        Effect.dispatch "achievementUnlocked" "secret-level" ∈ st1.log) :=
  unlockAchievement_unknown_id sampleHost "secret-level" true freshState defaultAchievements
    (by decide) (by decide)

theorem ownProp_map_override (defaults loaded : Props) (key : String) :
    ownProp (defaults.map (fun kv => (kv.1, (ownProp loaded kv.1).getD kv.2))) key
      = (ownProp defaults key).map (fun d => (ownProp loaded key).getD d) := by
  induction defaults with
  | nil => simp [ownProp]
  | cons kv rest ih =>
    obtain ⟨k, v⟩ := kv
    by_cases hk : k = key
    · subst hk
      simp [ownProp]
    · simp [ownProp, hk, ih]

theorem ownProp_filter_new (defaults loaded : Props) (key : String)
    (hnew : ownProp defaults key = none) :
    ownProp (loaded.filter (fun kv => (ownProp defaults kv.1).isNone)) key
      = ownProp loaded key := by
  induction loaded with
  | nil => simp [ownProp]
  | cons kv rest ih =>
    obtain ⟨k, v⟩ := kv
    by_cases hk : k = key
    · subst hk
      simp [List.filter, hnew, ownProp]
    · cases hd : (ownProp defaults k).isNone
      · simp [List.filter, hd, ownProp, hk, ih]
      · simp [List.filter, hd, ownProp, hk, ih]

/-- The merge of `loadStats` and `loadAchievements`: a field of the loaded value overrides the
default, a missing field keeps the default. -/
theorem ownProp_spreadOver (defaults : Props) (v : JSVal) (key : String) :
    ownProp (spreadOver defaults v) key =
      match ownProp (ownEnumerable v) key with
      | some w => some w
      | none => ownProp defaults key := by
  unfold spreadOver
  rw [ownProp_append, ownProp_map_override]
  cases hd : ownProp defaults key with
  | some d =>
    cases hl : ownProp (ownEnumerable v) key <;> simp
  | none =>
    simp only [Option.map_none', Option.none_orElse]
    rw [ownProp_filter_new defaults _ key hd]
    cases hl : ownProp (ownEnumerable v) key <;> simp

/-- C10, the failing path: when the text stored under `tossStats` or `achievements` is non-empty
and `JSON.parse` rejects it, `loadStats` and `loadAchievements` throw the `SyntaxError` instead
of returning the defaults; nothing catches it. -/
theorem load_malformed_throws (host : Host) (storage : String → Option String)
    (saved : String) (hne : saved ≠ "") (hbad : host.parse saved = none) :
    (storage "tossStats" = some saved → loadStats host storage = .error .syntaxError) ∧
    (storage "achievements" = some saved →
      loadAchievements host storage = .error .syntaxError) := by
  constructor
  · intro hs
    simp [loadStats, loadMerged, hs, hne, hbad]
  · intro hs
    simp [loadAchievements, loadMerged, hs, hne, hbad]

/-- Witness for C10: both keys hold a lone opening brace. -/
theorem load_malformed_throws_witness :
    loadStats sampleHost corruptStorage = .error .syntaxError ∧
    loadAchievements sampleHost corruptStorage = .error .syntaxError :=
  ⟨(load_malformed_throws sampleHost corruptStorage malformedDocument (by decide) rfl).1 rfl,
   (load_malformed_throws sampleHost corruptStorage malformedDocument (by decide) rfl).2 rfl⟩

/-- The sound part of C10: without a stored text, or with an empty one, the defaults are
returned; when the stored text parses, the result is an object in which every field of the
parsed value overrides the default and every other default is kept. -/
theorem loadMerged_ok (host : Host) (defaults : Props) (saved : Option String) :
    (saved = none ∨ saved = some "" → loadMerged host defaults saved = .ok (.obj defaults)) ∧
    (∀ text v, saved = some text → text ≠ "" → host.parse text = some v →
      ∃ merged, loadMerged host defaults saved = .ok (.obj merged) ∧
        ∀ key, ownProp merged key =
          match ownProp (ownEnumerable v) key with
          | some w => some w
          | none => ownProp defaults key) := by
  constructor
  · rintro (h | h) <;> simp [loadMerged, h]
  · intro text v hs hne hp
    refine ⟨spreadOver defaults v, by simp [loadMerged, hs, hne, hp], ?_⟩
    intro key
    exact ownProp_spreadOver defaults v key

theorem counterKeys_default (host : Host) (key : String) (hk : key ∈ counterKeys) :
    ownProp (defaultStats host) key = some (.num 0) ∧ key ∉ objectPrototypeKeys := by
  simp only [counterKeys, List.mem_cons, List.mem_singleton, List.not_mem_nil, or_false] at hk
  rcases hk with rfl | rfl | rfl | rfl
  · exact ⟨rfl, by decide⟩
  · exact ⟨rfl, by decide⟩
  · exact ⟨rfl, by decide⟩
  · exact ⟨rfl, by decide⟩

theorem getProp_spreadOver_counter (host : Host) (v : JSVal) (key : String)
    (hk : key ∈ counterKeys) :
    getProp (spreadOver (defaultStats host) v) key
      = (ownProp (ownEnumerable v) key).getD (.num 0) := by
  obtain ⟨hdef, _⟩ := counterKeys_default host key hk
  unfold getProp
  rw [ownProp_spreadOver, hdef]
  cases ownProp (ownEnumerable v) key <;> rfl

theorem counter_congr (a b : Props) (key : String) (h : getProp a key = getProp b key) :
    counter a key = counter b key := by
  unfold counter
  rw [h]

theorem statsInvariant_congr (a b : Props)
    (h : ∀ key ∈ counterKeys, getProp a key = getProp b key) :
    statsInvariant (.obj a) = statsInvariant (.obj b) := by
  simp only [statsInvariant]
  rw [counter_congr a b "total" (h _ (by decide)), counter_congr a b "heads" (h _ (by decide)),
    counter_congr a b "tails" (h _ (by decide)), counter_congr a b "edge" (h _ (by decide))]

theorem getD_ownProp_of_counter (loaded : Props) (key : String)
    (hproto : key ∉ objectPrototypeKeys) (n : Nat) (hc : counter loaded key = some n) :
    (ownProp loaded key).getD (.num 0) = getProp loaded key := by
  unfold counter getProp at hc
  unfold getProp
  cases hown : ownProp loaded key with
  | some w => rfl
  | none =>
    rw [hown] at hc
    simp [hproto] at hc

theorem counters_of_statsInvariant (loaded : Props) (h : statsInvariant (.obj loaded) = true) :
    ∀ key ∈ counterKeys, ∃ n, counter loaded key = some n := by
  simp only [statsInvariant] at h
  rcases ht : counter loaded "total" with _ | t
  · simp [ht] at h
  rcases hh : counter loaded "heads" with _ | hd
  · simp [ht, hh] at h
  rcases hl : counter loaded "tails" with _ | tl
  · simp [ht, hh, hl] at h
  rcases he : counter loaded "edge" with _ | e
  · simp [ht, hh, hl, he] at h
  intro key hk
  simp only [counterKeys, List.mem_cons, List.mem_singleton, List.not_mem_nil, or_false] at hk
  rcases hk with rfl | rfl | rfl | rfl
  · exact ⟨_, ht⟩
  · exact ⟨_, hh⟩
  · exact ⟨_, hl⟩
  · exact ⟨_, he⟩

theorem statsInvariant_spreadOver (host : Host) (v : JSVal) (h : statsInvariant v = true) :
    statsInvariant (.obj (spreadOver (defaultStats host) v)) = true := by
  cases v with
  | obj loaded =>
    rw [← h]
    apply statsInvariant_congr
    intro key hk
    obtain ⟨n, hn⟩ := counters_of_statsInvariant loaded h key hk
    rw [getProp_spreadOver_counter host _ key hk]
    exact getD_ownProp_of_counter loaded key (counterKeys_default host key hk).2 n hn
  | undefined => simp [statsInvariant] at h
  | null => simp [statsInvariant] at h
  | bool b => simp [statsInvariant] at h
  | num q => simp [statsInvariant] at h
  | str s => simp [statsInvariant] at h
  | arr items => simp [statsInvariant] at h
  | builtin name => simp [statsInvariant] at h

theorem importData_stats (host : Host) (text : String) (st : AppState) :
    (importData host text st).stats = st.stats ∨
    ∃ data stats, host.parse text = some data ∧ readField data "stats" = .ok stats ∧
      stats.truthy = true ∧ (importData host text st).stats = stats := by
  unfold importData importAttempt
  rcases hp : host.parse text with _ | data
  · exact Or.inl rfl
  · simp only
    rcases hrs : readField data "stats" with e | stats
    · exact Or.inl rfl
    · by_cases hst : stats.truthy = true
      · rcases hra : readField data "achievements" with e | achievements
        · left
          simp [bind, Except.bind, hst, hra, showNotification, emit]
        · by_cases hat : achievements.truthy = true
          · right
            refine ⟨data, stats, rfl, hrs, hst, ?_⟩
            simp [bind, Except.bind, pure, Except.pure, hst, hra, hat, showNotification, emit,
              saveStats, saveAchievements, setItem]
          · left
            simp only [Bool.not_eq_true] at hat
            simp [bind, Except.bind, pure, Except.pure, hst, hra, hat, showNotification, emit]
      · left
        simp only [Bool.not_eq_true] at hst
        simp [bind, Except.bind, pure, Except.pure, hst, showNotification, emit]

/-- C11, as stated, fails for both assigning operations. The defaults satisfy
`total == heads + tails + edge`, but `loadStats` on a stored object that carries `total: 5` and
no other counter returns total 5 with heads, tails and edge left at their default 0; and
`importData` accepts (and reloads on) an export whose stats hold total 10 with heads, tails and
edge 1 each, turning stats that satisfied the invariant into stats that do not. -/
theorem stats_invariant_not_established :
    statsInvariant (.obj (defaultStats counterHost)) = true ∧
    (∃ v, loadStats counterHost totalOnlyStorage = .ok v ∧ statsInvariant v = false) ∧
    statsInvariant freshState.stats = true ∧
    Effect.reload ∈ (importData counterHost skewedExport freshState).log ∧
    statsInvariant (importData counterHost skewedExport freshState).stats = false := by
  refine ⟨by decide, ⟨_, rfl, by decide⟩, by decide, by decide, by decide⟩

/-- C11 (amended): the default stats satisfy `total == heads + tails + edge` with non-negative
integer counters, and `loadStats` returns them when nothing (or the empty text) is stored.
Otherwise the two assigning operations carry the counters over without checking them:
`loadStats` on a stored text that parses returns an object in which each of the four counters
is the parsed value's own field when it has one and the default 0 when it has none, so the
result satisfies the invariant whenever the parsed value does; `importData`, whenever the text
parses to a document whose `stats` and `achievements` fields are both truthy, assigns the
document's `stats` field as it is (and reloads), so afterwards the invariant holds exactly when
it holds for that field, and for every other text it leaves the stats unchanged. -/
theorem stats_invariant_carried_over (host : Host) :
    statsInvariant (.obj (defaultStats host)) = true ∧
    (∀ storage : String → Option String,
      storage "tossStats" = none ∨ storage "tossStats" = some "" →
      loadStats host storage = .ok (.obj (defaultStats host))) ∧
    (∀ (storage : String → Option String) (text : String) (v : JSVal),
      storage "tossStats" = some text → text ≠ "" → host.parse text = some v →
      ∃ merged, loadStats host storage = .ok (.obj merged) ∧
        (∀ key ∈ counterKeys,
          getProp merged key = (ownProp (ownEnumerable v) key).getD (.num 0)) ∧
        (statsInvariant v = true → statsInvariant (.obj merged) = true)) ∧
    (∀ (text : String) (st : AppState),
      (importData host text st).stats = st.stats ∨
      ∃ data stats, host.parse text = some data ∧ readField data "stats" = .ok stats ∧
        stats.truthy = true ∧ (importData host text st).stats = stats) ∧
    (∀ (text : String) (st : AppState) (data stats achievements : JSVal),
      host.parse text = some data →
      readField data "stats" = .ok stats → stats.truthy = true →
      readField data "achievements" = .ok achievements → achievements.truthy = true →
      (importData host text st).stats = stats ∧
      statsInvariant (importData host text st).stats = statsInvariant stats ∧
      Effect.reload ∈ (importData host text st).log) ∧
    (∀ (text : String) (st : AppState),
      (¬ ∃ data stats achievements, host.parse text = some data ∧
        readField data "stats" = .ok stats ∧ stats.truthy = true ∧
        readField data "achievements" = .ok achievements ∧ achievements.truthy = true) →
      (importData host text st).stats = st.stats ∧
      (importData host text st).storage = st.storage) ∧
    (∃ v, loadStats counterHost consistentStorage = .ok v ∧ statsInvariant v = true) := by
  refine ⟨rfl, ?_, ?_, importData_stats host, ?_, ?_, ⟨_, rfl, by decide⟩⟩
  rotate_left 2
  · intro text st data stats achievements hp hs hst ha hat
    obtain ⟨h1, _, _, _, h5⟩ := importData_success host text st data stats achievements hp hs hst ha hat
    refine ⟨h1, by rw [h1], ?_⟩
    rw [h5]
    simp
  · intro text st hrej
    rw [importData_rejected host text st hrej]
    exact ⟨rfl, rfl⟩
  · intro storage h
    exact (loadMerged_ok host (defaultStats host) (storage "tossStats")).1 h
  · intro storage text v hs hne hp
    refine ⟨spreadOver (defaultStats host) v, ?_, ?_, ?_⟩
    · simp [loadStats, loadMerged, hs, hne, hp]
    · intro key hk
      exact getProp_spreadOver_counter host v key hk
    · exact statsInvariant_spreadOver host v

end CoinToss
